import Mathlib

/-!
# Shallow embedding of the spreadsheet validation core (lib/validation.ts)

This file embeds the normalization-and-validation engine of the EXCELDaddy
repository: the helper parsers (`parseCSVList`, `parseNumberArray`), the
per-sheet validators, the cross-sheet validators, and the orchestrator
`validateAllData`, together with theorems settling the frozen claims.

Modelling conventions:
* JavaScript values are modelled by the inductive type `JSVal`.  Numbers are
  modelled as exact rationals (`ℚ`) with a separate `nan` constructor; the
  claims under verification involve only integer arithmetic and NaN
  propagation, neither binary-float rounding nor infinities.
* `Number(·)` string coercion is modelled for optionally signed decimal
  literals (with an optional fraction part); hexadecimal, exponent and
  `Infinity` forms are outside the modelled subset, as are non-ASCII
  whitespace forms in trimming.
* JavaScript `Set`/`Map` keys are compared with structural (decidable)
  equality, which agrees with SameValueZero on all primitive values
  (including NaN-equals-NaN for Map keys).  Arrays and objects are compared
  by reference in JavaScript; theorems whose statements could be affected
  carry a primitivity hypothesis on the relevant values.
* Operations that would throw a TypeError in JavaScript (calling `.some` or
  `.forEach` on a non-array produced by `JSON.parse`) are modelled by
  `Option`: `none` is an uncaught exception aborting `validateAllData`.
-/

/-- A JavaScript runtime value, as far as the validation core observes it. -/
inductive JSVal where
  | undef : JSVal
  | jnull : JSVal
  | bool (b : Bool) : JSVal
  /-- A non-NaN JavaScript number, modelled as an exact rational. -/
  | num (q : ℚ) : JSVal
  /-- The JavaScript number NaN. -/
  | nan : JSVal
  | str (s : String) : JSVal
  | arr (xs : List JSVal) : JSVal
  | obj (fields : List (String × JSVal)) : JSVal
deriving Repr

mutual
/-- Structural equality on `JSVal`; agrees with JavaScript SameValueZero on
primitive values (NaN equals NaN, as for `Map`/`Set` keys). -/
def JSVal.beq : JSVal → JSVal → Bool
  | .undef, .undef => true
  | .jnull, .jnull => true
  | .bool a, .bool b => a == b
  | .num a, .num b => a == b
  | .nan, .nan => true
  | .str a, .str b => a == b
  | .arr a, .arr b => JSVal.beqList a b
  | .obj a, .obj b => JSVal.beqFields a b
  | _, _ => false

def JSVal.beqList : List JSVal → List JSVal → Bool
  | [], [] => true
  | a :: as, b :: bs => JSVal.beq a b && JSVal.beqList as bs
  | _, _ => false

def JSVal.beqFields : List (String × JSVal) → List (String × JSVal) → Bool
  | [], [] => true
  | (ka, va) :: as, (kb, vb) :: bs => ka == kb && JSVal.beq va vb && JSVal.beqFields as bs
  | _, _ => false
end

instance : BEq JSVal := ⟨JSVal.beq⟩

/-- JavaScript truthiness: `undefined`, `null`, `false`, `0`, `NaN` and the
empty string are falsy; every other value (including all arrays and objects)
is truthy. -/
def JSVal.truthy : JSVal → Bool
  | .undef => false
  | .jnull => false
  | .bool b => b
  | .num q => q != 0
  | .nan => false
  | .str s => s ≠ ""
  | .arr _ => true
  | .obj _ => true

/-- Is the value a JavaScript primitive (not an array or object)?  On
primitives, structural equality coincides with SameValueZero. -/
def JSVal.isPrim : JSVal → Bool
  | .arr _ => false
  | .obj _ => false
  | _ => true

/-- Decimal digits of a natural number (via the kernel-computable `Nat.repr`). -/
def natToString (n : Nat) : String := toString n

/-- Decimal rendering of an integer, as JavaScript renders integral numbers. -/
def intToString (i : Int) : String := toString i

/-!
Rational arithmetic is routed through `mkRat` (rather than the `@[irreducible]`
`Rat.add`/`Rat.mul`/…) so that every model function evaluates inside the
kernel; the `ratAdd_eq`-style lemmas below identify these with the ring
operations of `ℚ` for proof purposes.
-/

def ratAdd (a b : ℚ) : ℚ := mkRat (a.num * b.den + b.num * a.den) (a.den * b.den)

def ratSub (a b : ℚ) : ℚ := mkRat (a.num * b.den - b.num * a.den) (a.den * b.den)

def ratMul (a b : ℚ) : ℚ := mkRat (a.num * b.num) (a.den * b.den)

def ratNeg (a : ℚ) : ℚ := mkRat (-a.num) a.den

def ratAbs (a : ℚ) : ℚ := mkRat a.num.natAbs a.den

/-- Fractional digits (truncated at the given fuel) of a rational in `[0,1)`. -/
def fracDigits : Nat → ℚ → String
  | 0, _ => ""
  | n + 1, x =>
    if x = 0 then ""
    else
      let y := ratMul (mkRat 10 1) x
      intToString y.floor ++ fracDigits n (ratSub y (mkRat y.floor 1))

/-- Rendering of a (non-NaN) JavaScript number.  Integral values render in
decimal exactly as JavaScript does; non-integral values render with up to 20
(truncated) fractional digits of the exact rational, which agrees with
JavaScript on short terminating decimals. -/
def numToString (q : ℚ) : String :=
  if q.den = 1 then intToString q.num
  else
    let a := ratAbs q
    (if q.num < 0 then "-" else "") ++
      intToString a.floor ++ "." ++ fracDigits 20 (ratSub a (mkRat a.floor 1))

mutual
/-- JavaScript `String(·)` / template-literal coercion. -/
def jsToString : JSVal → String
  | .undef => "undefined"
  | .jnull => "null"
  | .bool b => if b then "true" else "false"
  | .num q => numToString q
  | .nan => "NaN"
  | .str s => s
  | .arr xs => String.intercalate "," (jsArrElemStrings xs)
  | .obj _ => "[object Object]"

/-- `Array.prototype.toString` element rendering: `null` and `undefined`
render as the empty string inside an array. -/
def jsArrElemStrings : List JSVal → List String
  | [] => []
  | .undef :: rest => "" :: jsArrElemStrings rest
  | .jnull :: rest => "" :: jsArrElemStrings rest
  | v :: rest => jsToString v :: jsArrElemStrings rest
end

/-- The whitespace characters recognised by the model for `trim` and for
`Number(·)` (the ASCII subset of the JavaScript whitespace classes). -/
def jsIsWs (c : Char) : Bool :=
  c = ' ' || c = '\t' || c = '\n' || c = '\r' || c = '\x0b' || c = '\x0c'

/-- JavaScript `String.prototype.trim` (ASCII whitespace subset). -/
def jsTrim (s : String) : String :=
  ⟨(s.data.dropWhile jsIsWs).reverse.dropWhile jsIsWs |>.reverse⟩

/-- Value of a nonempty all-digit character list, `none` otherwise. -/
def digitsVal (cs : List Char) : Option Nat :=
  if cs = [] then none
  else
    cs.foldl
      (fun acc c =>
        match acc with
        | none => none
        | some n => if c.isDigit then some (10 * n + (c.toNat - '0'.toNat)) else none)
      (some 0)

/-- `String.prototype.split` on a single-character separator, over character
lists (the split of an empty string is one empty segment, as in JavaScript). -/
def splitOnChar (sep : Char) : List Char → List (List Char)
  | [] => [[]]
  | c :: rest =>
    match splitOnChar sep rest with
    | [] => [[]]
    | cur :: others => if c = sep then [] :: cur :: others else (c :: cur) :: others

/-- `String.prototype.startsWith` over character lists. -/
def startsWithChars : List Char → List Char → Bool
  | _, [] => true
  | [], _ :: _ => false
  | c :: cs, p :: ps => c == p && startsWithChars cs ps

/-- Unsigned decimal literal `digits [. digits]` (at least one digit overall),
as accepted by JavaScript `Number(·)` within the modelled subset. -/
def parseUnsignedDecimal (cs : List Char) : Option ℚ :=
  match splitOnChar '.' cs with
  | [intPart] => (digitsVal intPart).map fun n => (n : ℚ)
  | [intPart, fracPart] =>
    if intPart = [] ∧ fracPart = [] then none
    else if intPart ≠ [] ∧ fracPart = [] then (digitsVal intPart).map fun n => (n : ℚ)
    else if intPart = [] then
      (digitsVal fracPart).map fun f => mkRat f (10 ^ fracPart.length)
    else
      match digitsVal intPart, digitsVal fracPart with
      | some n, some f => some (mkRat (n * 10 ^ fracPart.length + f) (10 ^ fracPart.length))
      | _, _ => none
  | _ => none

/-- JavaScript `Number(·)` on a string (`none` models NaN): whitespace is
trimmed, the empty string converts to `0`, and an optionally signed decimal
literal converts to its value. -/
def strToNumber (s : String) : Option ℚ :=
  let t := (jsTrim s).data
  match t with
  | [] => some 0
  | '-' :: rest => (parseUnsignedDecimal rest).map fun q => ratNeg q
  | '+' :: rest => parseUnsignedDecimal rest
  | _ => parseUnsignedDecimal t

/-- JavaScript `Number(·)` coercion (`none` models NaN).  Arrays coerce via
their string rendering, objects to NaN. -/
def jsToNumber : JSVal → Option ℚ
  | .undef => none
  | .jnull => some 0
  | .bool b => some (if b then 1 else 0)
  | .num q => some q
  | .nan => none
  | .str s => strToNumber s
  | .arr xs => strToNumber (jsToString (.arr xs))
  | .obj _ => none

/-- Repackage an optional number as a `JSVal` (`none` becomes NaN). -/
def numOrNaN : Option ℚ → JSVal
  | some q => .num q
  | none => .nan

/-! ## JSON (`JSON.parse` / `JSON.stringify`) -/

/-- JSON insignificant whitespace. -/
def jsonWs (cs : List Char) : List Char :=
  cs.dropWhile fun c => c = ' ' || c = '\t' || c = '\n' || c = '\r'

/-- Value of a hexadecimal digit. -/
def hexVal (c : Char) : Option Nat :=
  if c.isDigit then some (c.toNat - '0'.toNat)
  else if 'a' ≤ c ∧ c ≤ 'f' then some (c.toNat - 'a'.toNat + 10)
  else if 'A' ≤ c ∧ c ≤ 'F' then some (c.toNat - 'A'.toNat + 10)
  else none

/-- Decoded character for a single-character JSON escape, if legal. -/
def jsonEscDecode (e : Char) : Option Char :=
  if e = '"' then some '"'
  else if e = '\\' then some '\\'
  else if e = '/' then some '/'
  else if e = 'b' then some '\x08'
  else if e = 'f' then some '\x0c'
  else if e = 'n' then some '\n'
  else if e = 'r' then some '\r'
  else if e = 't' then some '\t'
  else none

/-- Scan the body of a JSON string after the opening quote; yields the decoded
content and the remainder after the closing quote.  (A `\uXXXX` escape decodes
through `Char.ofNat`; lone surrogate halves are outside the modelled subset.) -/
def jsonStrAux : List Char → Option (List Char × List Char)
  | [] => none
  | '"' :: rest => some ([], rest)
  | '\\' :: 'u' :: h1 :: h2 :: h3 :: h4 :: rest =>
    match hexVal h1, hexVal h2, hexVal h3, hexVal h4 with
    | some a, some b, some c, some d =>
      (jsonStrAux rest).map fun (content, r) =>
        (Char.ofNat (((a * 16 + b) * 16 + c) * 16 + d) :: content, r)
    | _, _, _, _ => none
  | '\\' :: e :: rest =>
    match jsonEscDecode e with
    | some c => (jsonStrAux rest).map fun (content, r) => (c :: content, r)
    | none => none
  | c :: rest =>
    if c.toNat < 0x20 then none
    else (jsonStrAux rest).map fun (content, r) => (c :: content, r)

/-- Longest digit prefix and the remainder. -/
def spanDigits (cs : List Char) : List Char × List Char :=
  (cs.takeWhile Char.isDigit, cs.dropWhile Char.isDigit)

/-- Scan a JSON number (`-?(0|[1-9][0-9]*)(\.[0-9]+)?([eE][+-]?[0-9]+)?`);
yields its exact rational value and the remainder. -/
def jsonNumAux (cs : List Char) : Option (ℚ × List Char) :=
  let (neg, cs1) : Bool × List Char :=
    match cs with
    | '-' :: r => (true, r)
    | _ => (false, cs)
  let intRes : Option (Nat × List Char) :=
    match cs1 with
    | '0' :: r => if (r.head?.map Char.isDigit).getD false then none else some (0, r)
    | c :: _ =>
      if c.isDigit then
        let (ds, r) := spanDigits cs1
        (digitsVal ds).map fun n => (n, r)
      else none
    | [] => none
  match intRes with
  | none => none
  | some (ip, r1) =>
    let fracRes : Option (ℚ × List Char) :=
      match r1 with
      | '.' :: r2 =>
        let (ds, r3) := spanDigits r2
        if ds = [] then none
        else (digitsVal ds).map fun f =>
          (mkRat (ip * 10 ^ ds.length + f) (10 ^ ds.length), r3)
      | _ => some ((ip : ℚ), r1)
    match fracRes with
    | none => none
    | some (mant, r4) =>
      let expRes : Option (ℚ × List Char) :=
        match r4 with
        | 'e' :: r5 | 'E' :: r5 =>
          let (esign, r6) : Bool × List Char :=
            match r5 with
            | '-' :: r => (true, r)
            | '+' :: r => (false, r)
            | _ => (false, r5)
          let (ds, r7) := spanDigits r6
          if ds = [] then none
          else (digitsVal ds).map fun e =>
            (if esign then mkRat mant.num (mant.den * 10 ^ e)
             else mkRat (mant.num * 10 ^ e) mant.den, r7)
        | _ => some (mant, r4)
      expRes.map fun (q, r) => (if neg then ratNeg q else q, r)

mutual
/-- Fueled JSON value parser over the remaining characters (leading whitespace
already skipped); the fuel strictly exceeds the recursion depth for every
input when initialised to two more than the input length. -/
def jsonVal : Nat → List Char → Option (JSVal × List Char)
  | 0, _ => none
  | fuel + 1, cs =>
    match cs with
    | '{' :: rest =>
      match jsonWs rest with
      | '}' :: r => some (.obj [], r)
      | cs1 => jsonMembers fuel cs1 []
    | '[' :: rest =>
      match jsonWs rest with
      | ']' :: r => some (.arr [], r)
      | cs1 => jsonItems fuel cs1 []
    | '"' :: rest => (jsonStrAux rest).map fun (content, r) => (.str ⟨content⟩, r)
    | 't' :: 'r' :: 'u' :: 'e' :: rest => some (.bool true, rest)
    | 'f' :: 'a' :: 'l' :: 's' :: 'e' :: rest => some (.bool false, rest)
    | 'n' :: 'u' :: 'l' :: 'l' :: rest => some (.jnull, rest)
    | _ => (jsonNumAux cs).map fun (q, r) => (.num q, r)

/-- Parse the members of a JSON object after `{` (at least one member). -/
def jsonMembers : Nat → List Char → List (String × JSVal) → Option (JSVal × List Char)
  | 0, _, _ => none
  | fuel + 1, cs, acc =>
    match cs with
    | '"' :: rest =>
      match jsonStrAux rest with
      | none => none
      | some (key, r1) =>
        match jsonWs r1 with
        | ':' :: r2 =>
          match jsonVal fuel (jsonWs r2) with
          | none => none
          | some (v, r3) =>
            match jsonWs r3 with
            | ',' :: r4 => jsonMembers fuel (jsonWs r4) (acc ++ [(⟨key⟩, v)])
            | '}' :: r4 => some (.obj (acc ++ [(⟨key⟩, v)]), r4)
            | _ => none
        | _ => none
    | _ => none

/-- Parse the items of a JSON array after `[` (at least one item). -/
def jsonItems : Nat → List Char → List JSVal → Option (JSVal × List Char)
  | 0, _, _ => none
  | fuel + 1, cs, acc =>
    match jsonVal fuel cs with
    | none => none
    | some (v, r) =>
      match jsonWs r with
      | ',' :: r2 => jsonItems fuel (jsonWs r2) (acc ++ [v])
      | ']' :: r2 => some (.arr (acc ++ [v]), r2)
      | _ => none
end

/-- `JSON.parse`: `none` models a thrown `SyntaxError`. -/
def jsonParse (s : String) : Option JSVal :=
  match jsonVal (s.length + 2) (jsonWs s.data) with
  | some (v, rest) => if jsonWs rest = [] then some v else none
  | none => none

/-- Lower-case hexadecimal digit character. -/
def hexDigitChar (n : Nat) : Char :=
  if n < 10 then Char.ofNat ('0'.toNat + n) else Char.ofNat ('a'.toNat + n - 10)

/-- `JSON.stringify` escaping of a single string character. -/
def escChar (c : Char) : List Char :=
  if c = '"' then ['\\', '"']
  else if c = '\\' then ['\\', '\\']
  else if c = '\x08' then ['\\', 'b']
  else if c = '\x0c' then ['\\', 'f']
  else if c = '\n' then ['\\', 'n']
  else if c = '\r' then ['\\', 'r']
  else if c = '\t' then ['\\', 't']
  else if c.toNat < 0x20 then
    ['\\', 'u', '0', '0', hexDigitChar (c.toNat / 16), hexDigitChar (c.toNat % 16)]
  else [c]

/-- `JSON.stringify` of a string value. -/
def jsonQuote (s : String) : String :=
  ⟨'"' :: (s.data.flatMap escChar ++ ['"'])⟩

/-- `JSON.stringify({ message: t })`, the exact shape produced by the
`AttributesJSON` auto-repair. -/
def stringifyMessage (t : String) : String :=
  "\x7b\"message\":" ++ jsonQuote t ++ "\x7d"

/-! ## Rows, errors, and the helpers of validation.ts -/

/-- A raw spreadsheet row: a JavaScript record from column name to cell value.
JavaScript objects are insertion-ordered and cannot carry duplicate keys. -/
abbrev Row := List (String × JSVal)

/-- Property read `row[k]` (`undefined` when the column is absent). -/
def getF (r : Row) (k : String) : JSVal :=
  (((r.find? fun e => e.1 == k).map fun e => e.2).getD .undef)

/-- Property write `row[k] = v`: updates an existing key in place (keeping its
position), otherwise appends, as JavaScript property assignment does. -/
def setF : Row → String → JSVal → Row
  | [], k, v => [(k, v)]
  | e :: rest, k, v => if e.1 == k then (e.1, v) :: rest else e :: setF rest k v

/-- The `ValidationError` record of validation.ts. -/
structure ValidationError where
  type : String
  message : String
  rowIndex : Int
  column : String
  sheetName : Option String := none
  value : Option JSVal := none
deriving Repr

/-- The `ValidationResult` record of validation.ts. -/
structure ValidationResult where
  isValid : Bool
  errors : List ValidationError
deriving Repr

/-- Collapse every maximal run of whitespace to one space
(the `replace(/\s+/g, ' ')` of `getBaseSheetName`). -/
def squeezeSpaces : List Char → List Char
  | [] => []
  | [c] => [c]
  | c1 :: c2 :: rest =>
    if c1 = ' ' ∧ c2 = ' ' then squeezeSpaces (c2 :: rest)
    else c1 :: squeezeSpaces (c2 :: rest)

def collapseWs (s : String) : String :=
  ⟨squeezeSpaces (s.data.map fun c => if jsIsWs c then ' ' else c)⟩

/-- `getBaseSheetName` of validation.ts: lower-case, collapse whitespace,
trim, then classify by prefix; unmatched names pass through unchanged. -/
def getBaseSheetName (sheetName : String) : String :=
  let cleanName := jsTrim (collapseWs ⟨sheetName.data.map Char.toLower⟩)
  if startsWithChars cleanName.data "client".data then "Clients"
  else if startsWithChars cleanName.data "worker".data then "Workers"
  else if startsWithChars cleanName.data "task".data then "Tasks"
  else sheetName

/-- The `REQUIRED_COLUMNS` table of validation.ts (`none` models an absent
key, i.e. `undefined` lookup). -/
def REQUIRED_COLUMNS (base : String) : Option (List String) :=
  if base = "Clients" then
    some ["ClientID", "ClientName", "PriorityLevel", "RequestedTaskIDs", "GroupTag",
      "AttributesJSON"]
  else if base = "Workers" then
    some ["WorkerID", "WorkerName", "Skills", "AvailableSlots", "MaxLoadPerPhase",
      "WorkerGroup", "QualificationLevel"]
  else if base = "Tasks" then
    some ["TaskID", "TaskName", "Category", "Duration", "RequiredSkills", "PreferredPhases",
      "MaxConcurrent"]
  else none

/-- `parseCSVList` of validation.ts: split a string on commas, trim, drop the
empty segments; stringify an array elementwise; anything else is empty. -/
def parseCSVList (val : JSVal) : List String :=
  match val with
  | .str s => (((splitOnChar ',' s.data).map fun cs => jsTrim ⟨cs⟩).filter fun v => v ≠ "")
  | .arr xs => xs.map jsToString
  | _ => []

/-- JS-number addition (`none` models NaN, which propagates). -/
def jsAdd (a b : Option ℚ) : Option ℚ :=
  match a, b with
  | some x, some y => some (ratAdd x y)
  | _, _ => none

/-- JS-number subtraction (`none` models NaN, which propagates). -/
def jsSub (a b : Option ℚ) : Option ℚ :=
  match a, b with
  | some x, some y => some (ratSub x y)
  | _, _ => none

/-- JS-number multiplication (`none` models NaN, which propagates). -/
def jsMul (a b : Option ℚ) : Option ℚ :=
  match a, b with
  | some x, some y => some (ratMul x y)
  | _, _ => none

/-- JS `<` on numbers: false whenever either side is NaN. -/
def jsLtB (a b : Option ℚ) : Bool :=
  match a, b with
  | some x, some y => decide (x < y)
  | _, _ => false

/-- JS `>` on numbers: false whenever either side is NaN. -/
def jsGtB (a b : Option ℚ) : Bool :=
  match a, b with
  | some x, some y => decide (y < x)
  | _, _ => false

/-- `ToLength` as used by `Array.from({length: n})`: NaN and non-positive
values give 0, positive values truncate. -/
def jsToLength : Option ℚ → Nat
  | none => 0
  | some q => if q ≤ 0 then 0 else q.floor.toNat

/-- `parseNumberArray` of validation.ts.  A string containing `-` takes the
range branch (split on `-`, coerce the first two parts, expand); any other
string is fed to `JSON.parse`, whose result — whatever its shape — is
returned as-is, with a parse failure caught and turned into `[]`; an array
input is mapped through `Number`; anything else gives `[]`.  The `.headD ""`
defaults are unreachable: a string containing `-` splits into at least two
parts. -/
def parseNumberArray (val : JSVal) : JSVal :=
  match val with
  | .str s =>
    if s.data.contains '-' then
      let parts := splitOnChar '-' s.data
      let start := strToNumber ⟨parts.headD []⟩
      let stop := strToNumber ⟨(parts.drop 1).headD []⟩
      let len := jsToLength (jsAdd (jsSub stop start) (some 1))
      .arr ((List.range len).map fun (i : Nat) => numOrNaN (jsAdd start (some (mkRat (i : Int) 1))))
    else
      match jsonParse s with
      | some v => v
      | none => .arr []
  | .arr xs => .arr (xs.map fun x => numOrNaN (jsToNumber x))
  | _ => .arr []

/-- View a value as an array of elements; `none` at a call site models the
TypeError thrown by iterating a non-array. -/
def asArr : JSVal → Option (List JSVal)
  | .arr xs => some xs
  | _ => none

/-- An insertion-ordered JavaScript `Map` from phase keys to numbers. -/
abbrev JSMap := List (JSVal × Option ℚ)

/-- `Map.prototype.get` (`none` when absent; `some` carries the stored
number, itself `none` for NaN). -/
def mapGet (m : JSMap) (k : JSVal) : Option (Option ℚ) :=
  (m.find? fun e => JSVal.beq e.1 k).map fun e => e.2

/-- `Map.prototype.set`: updates an existing key in place (keeping the
original key and its position), otherwise appends. -/
def mapSet (m : JSMap) (k : JSVal) (v : Option ℚ) : JSMap :=
  match m with
  | [] => [(k, v)]
  | e :: rest => if JSVal.beq e.1 k then (e.1, v) :: rest else e :: mapSet rest k v

/-- `x || 0` on a map-read result: an absent entry (`undefined`) and falsy
numbers (0 and NaN) collapse to 0. -/
def orZero : Option (Option ℚ) → Option ℚ
  | some (some q) => if q = 0 then some 0 else some q
  | some none => some 0
  | none => some 0

/-- The numeric value read back from a phase map through `get(...) || 0`
(total: an absent key and falsy stored numbers read as 0). -/
def mapAt (m : JSMap) (k : JSVal) : ℚ := (orZero (mapGet m k)).getD 0

/-- The `.length` property as a value: numeric for arrays and strings, an
object's own `length` field if any, `undefined` otherwise. -/
def jsLengthVal : JSVal → JSVal
  | .arr xs => .num xs.length
  | .str s => .num s.length
  | .obj fs => (((fs.reverse.find? fun e => e.1 == "length").map fun e => e.2)).getD .undef
  | _ => (.undef)

/-! ## The validators of validation.ts -/

/-- `data.forEach((row, index) => errors.push(...))`: concatenate the
per-row errors in row order, threading the row index. -/
def eachRow (f : Nat → Row → List ValidationError) : Nat → List Row → List ValidationError
  | _, [] => []
  | i, r :: rs => f i r ++ eachRow f (i + 1) rs

/-- As `eachRow`, but a per-row `none` (a thrown TypeError) aborts the whole
traversal. -/
def eachRowM (f : Nat → Row → Option (List ValidationError)) :
    Nat → List Row → Option (List ValidationError)
  | _, [] => some []
  | i, r :: rs =>
    match f i r with
    | none => none
    | some es => (eachRowM f (i + 1) rs).map fun rest => es ++ rest

/-- `validateRequiredColumns` of validation.ts. -/
def validateRequiredColumns (sheetName : String) (data : List Row) : List ValidationError :=
  let baseSheetName := getBaseSheetName sheetName
  match REQUIRED_COLUMNS baseSheetName with
  | none => []
  | some required =>
    match data with
    | [] => []
    | firstRow :: _ =>
      let actualColumns := firstRow.map fun e => e.1
      let missingColumns := required.filter fun col => ¬ actualColumns.contains col
      missingColumns.map fun col =>
        { type := "error", message := "Missing required column: " ++ col,
          rowIndex := -1, column := col, sheetName := some sheetName }

/-- The ID column looked up by `validateDuplicateIDs` per base sheet name. -/
def idColumnOf (base : String) : Option String :=
  if base = "Clients" then some "ClientID"
  else if base = "Workers" then some "WorkerID"
  else if base = "Tasks" then some "TaskID"
  else none

/-- The row loop of `validateDuplicateIDs`, carrying the seen-set of
string-coerced truthy IDs. -/
def dupGo (sheetName idColumn : String) : List String → Nat → List Row → List ValidationError
  | _, _, [] => []
  | seen, i, row :: rest =>
    let id := getF row idColumn
    let here : List ValidationError :=
      if id.truthy && seen.contains (jsToString id) then
        [{ type := "error", message := "Duplicate " ++ idColumn ++ ": " ++ jsToString id,
           rowIndex := i, column := idColumn, sheetName := some sheetName, value := some id }]
      else []
    let seen' := if id.truthy then jsToString id :: seen else seen
    here ++ dupGo sheetName idColumn seen' (i + 1) rest

/-- `validateDuplicateIDs` of validation.ts. -/
def validateDuplicateIDs (sheetName : String) (data : List Row) : List ValidationError :=
  match idColumnOf (getBaseSheetName sheetName) with
  | none => []
  | some idColumn => dupGo sheetName idColumn [] 0 data

/-- The row body of `validatePriorityLevel`. -/
def priorityRowCheck (sheetName : String) (i : Nat) (row : Row) : List ValidationError :=
  let priority := jsToNumber (getF row "PriorityLevel")
  if priority.isNone || jsLtB priority (some 1) || jsGtB priority (some 5) then
    [{ type := "error",
       message := "PriorityLevel must be between 1-5, got: " ++
         jsToString (getF row "PriorityLevel"),
       rowIndex := i, column := "PriorityLevel", sheetName := some sheetName,
       value := some (getF row "PriorityLevel") }]
  else []

/-- `validatePriorityLevel` of validation.ts. -/
def validatePriorityLevel (data : List Row) (sheetName : String) : List ValidationError :=
  if getBaseSheetName sheetName ≠ "Clients" then []
  else eachRow (priorityRowCheck sheetName) 0 data

/-- The row body of `validateDuration`. -/
def durationRowCheck (sheetName : String) (i : Nat) (row : Row) : List ValidationError :=
  let duration := jsToNumber (getF row "Duration")
  if duration.isNone || jsLtB duration (some 1) then
    [{ type := "error",
       message := "Duration must be >= 1, got: " ++ jsToString (getF row "Duration"),
       rowIndex := i, column := "Duration", sheetName := some sheetName,
       value := some (getF row "Duration") }]
  else []

/-- `validateDuration` of validation.ts. -/
def validateDuration (data : List Row) (sheetName : String) : List ValidationError :=
  if getBaseSheetName sheetName ≠ "Tasks" then []
  else eachRow (durationRowCheck sheetName) 0 data

/-- The row body of `validateAvailableSlots` (`none` models the TypeError of
`slots.some` on a non-array). -/
def slotsRowCheck (sheetName : String) (i : Nat) (row : Row) :
    Option (List ValidationError) :=
  match asArr (parseNumberArray (getF row "AvailableSlots")) with
  | none => none
  | some slots =>
    let hasNonNumeric := slots.any fun slot => (jsToNumber slot).isNone
    some
      (if hasNonNumeric then
        [{ type := "error",
           message := "AvailableSlots contains non-numeric values: " ++
             jsToString (getF row "AvailableSlots"),
           rowIndex := i, column := "AvailableSlots", sheetName := some sheetName,
           value := some (getF row "AvailableSlots") }]
      else [])

/-- `validateAvailableSlots` of validation.ts; `none` models the TypeError of
`slots.some` when `parseNumberArray` hands back a non-array. -/
def validateAvailableSlots (data : List Row) (sheetName : String) :
    Option (List ValidationError) :=
  if getBaseSheetName sheetName ≠ "Workers" then some []
  else eachRowM (slotsRowCheck sheetName) 0 data

/-- One row of `validateAttributesJSON`: skip non-strings and falsy values;
a string that parses is untouched; a failing string that does not start with
a brace or bracket and contains no colon is auto-repaired in place to
`{message: trimmed}`; other failing strings yield one error. -/
def attrRowStep (sheetName : String) (i : Nat) (row : Row) : List ValidationError × Row :=
  match getF row "AttributesJSON" with
  | .str s =>
    if s ≠ "" then
      match jsonParse s with
      | some _ => ([], row)
      | none =>
        let trimmedValue := jsTrim s
        if ¬ startsWithChars trimmedValue.data ['\x7b'] ∧
            ¬ startsWithChars trimmedValue.data ['['] ∧
            ¬ trimmedValue.data.contains ':' then
          ([], setF row "AttributesJSON" (.str (stringifyMessage trimmedValue)))
        else
          ([{ type := "error", message := "Invalid JSON in AttributesJSON: " ++ s,
              rowIndex := i, column := "AttributesJSON", sheetName := some sheetName,
              value := some (.str s) }], row)
    else ([], row)
  | _ => ([], row)

/-- The row loop of `validateAttributesJSON`, returning the errors and the
(possibly repaired) rows. -/
def attrGo (sheetName : String) : Nat → List Row → List ValidationError × List Row
  | _, [] => ([], [])
  | i, r :: rs =>
    let (e, r') := attrRowStep sheetName i r
    let (es, rs') := attrGo sheetName (i + 1) rs
    (e ++ es, r' :: rs')

/-- `validateAttributesJSON` of validation.ts, with its in-place row mutation
made explicit in the returned row list. -/
def validateAttributesJSON (data : List Row) (sheetName : String) :
    List ValidationError × List Row :=
  if getBaseSheetName sheetName ≠ "Clients" then ([], data)
  else attrGo sheetName 0 data

/-- The row body of `validateTaskReferences`, over the task-ID set. -/
def taskRefRowCheck (taskIds : List JSVal) (i : Nat) (client : Row) : List ValidationError :=
  let requestedTasks := parseCSVList (getF client "RequestedTaskIDs")
  let invalidTasks :=
    requestedTasks.filter fun taskId => ¬ taskIds.any fun tid => JSVal.beq tid (.str taskId)
  invalidTasks.map fun taskId =>
    { type := "error",
      message := "RequestedTaskID \"" ++ taskId ++ "\" not found in Tasks sheet",
      rowIndex := i, column := "RequestedTaskIDs", sheetName := some "Clients",
      value := some (.str taskId) }

/-- `validateTaskReferences` of validation.ts. -/
def validateTaskReferences (clients tasks : List Row) : List ValidationError :=
  let taskIds := tasks.map fun t => getF t "TaskID"
  eachRow (taskRefRowCheck taskIds) 0 clients

/-- `validateWorkerOverload` of validation.ts.  `availableSlots.length` on a
non-array yields `undefined`, so the `<` comparison is false and no error is
emitted (no TypeError here). -/
def overloadRowCheck (i : Nat) (worker : Row) : List ValidationError :=
  let availableSlots := parseNumberArray (getF worker "AvailableSlots")
  let maxLoad := jsToNumber (getF worker "MaxLoadPerPhase")
  if jsLtB (jsToNumber (jsLengthVal availableSlots)) maxLoad then
    [{ type := "error",
       message := "Worker has " ++ jsToString (jsLengthVal availableSlots) ++
         " available slots but MaxLoadPerPhase is " ++ jsToString (numOrNaN maxLoad),
       rowIndex := i, column := "MaxLoadPerPhase", sheetName := some "Workers",
       value := some (numOrNaN maxLoad) }]
  else []

/-- `validateWorkerOverload` of validation.ts (see `overloadRowCheck`). -/
def validateWorkerOverload (workers : List Row) : List ValidationError :=
  eachRow overloadRowCheck 0 workers

/-- The row body of `validateSkillCoverage`, over the pooled worker skills. -/
def skillRowCheck (workerSkills : List String) (i : Nat) (task : Row) : List ValidationError :=
  let requiredSkills := parseCSVList (getF task "RequiredSkills")
  let missingSkills := requiredSkills.filter fun skill => ¬ workerSkills.contains skill
  missingSkills.map fun skill =>
    { type := "error",
      message := "Required skill \"" ++ skill ++ "\" not available in any worker",
      rowIndex := i, column := "RequiredSkills", sheetName := some "Tasks",
      value := some (.str skill) }

/-- `validateSkillCoverage` of validation.ts. -/
def validateSkillCoverage (workers tasks : List Row) : List ValidationError :=
  let workerSkills := workers.flatMap fun worker => parseCSVList (getF worker "Skills")
  eachRow (skillRowCheck workerSkills) 0 tasks

/-- The row body of `validateMaxConcurrency`, over the worker rows. -/
def concurrencyRowCheck (workers : List Row) (i : Nat) (task : Row) : List ValidationError :=
  let maxConcurrent := jsToNumber (getF task "MaxConcurrent")
  let requiredSkills := parseCSVList (getF task "RequiredSkills")
  let qualifiedWorkers := workers.filter fun worker =>
    let workerSkills := parseCSVList (getF worker "Skills")
    requiredSkills.any fun skill => workerSkills.contains skill
  if jsLtB (some (qualifiedWorkers.length : ℚ)) maxConcurrent then
    [{ type := "error",
       message := "MaxConcurrent (" ++ jsToString (numOrNaN maxConcurrent) ++
         ") exceeds qualified workers (" ++ jsToString (.num qualifiedWorkers.length) ++ ")",
       rowIndex := i, column := "MaxConcurrent", sheetName := some "Tasks",
       value := some (numOrNaN maxConcurrent) }]
  else []

/-- `validateMaxConcurrency` of validation.ts. -/
def validateMaxConcurrency (tasks workers : List Row) : List ValidationError :=
  eachRow (concurrencyRowCheck workers) 0 tasks

/-- `validateCircularCoRunGroups` of validation.ts: a placeholder that builds
a dependency map it never inspects and returns no errors. -/
def validateCircularCoRunGroups (_clients : List Row) : List ValidationError := []

/-- `validateConflictingRules` of validation.ts: an unimplemented placeholder
returning no errors. -/
def validateConflictingRules (_tasks : List Row) : List ValidationError := []

/-- The worker loop of `validatePhaseSlotSaturation`, building per-phase
supply; `none` models the TypeError of `.forEach` on a non-array. -/
def phaseSlotsGo : JSMap → List Row → Option JSMap
  | m, [] => some m
  | m, worker :: rest =>
    match asArr (parseNumberArray (getF worker "AvailableSlots")) with
    | none => none
    | some slots =>
      let maxLoad := jsToNumber (getF worker "MaxLoadPerPhase")
      let m' := slots.foldl (fun acc phase => mapSet acc phase (jsAdd (orZero (mapGet acc phase)) maxLoad)) m
      phaseSlotsGo m' rest

/-- The task loop of `validatePhaseSlotSaturation`, building per-phase
demand; `none` models the TypeError of `.forEach` on a non-array. -/
def phaseReqGo : JSMap → List Row → Option JSMap
  | m, [] => some m
  | m, task :: rest =>
    let duration := jsToNumber (getF task "Duration")
    match asArr (parseNumberArray (getF task "PreferredPhases")) with
    | none => none
    | some preferredPhases =>
      let maxConcurrent := jsToNumber (getF task "MaxConcurrent")
      let m' := preferredPhases.foldl
        (fun acc phase =>
          mapSet acc phase (jsAdd (orZero (mapGet acc phase)) (jsMul duration maxConcurrent)))
        m
      phaseReqGo m' rest

/-- The saturation comparison loop over the demand map. -/
def saturationErrorsOf (phaseSlots phaseRequirements : JSMap) : List ValidationError :=
  phaseRequirements.flatMap fun e =>
    let required := e.2
    let available := orZero (mapGet phaseSlots e.1)
    if jsGtB required available then
      [{ type := "error",
         message := "Phase " ++ jsToString e.1 ++ " requires " ++ jsToString (numOrNaN required) ++
           " slots but only " ++ jsToString (numOrNaN available) ++ " are available",
         rowIndex := -1, column := "PreferredPhases", sheetName := some "Tasks",
         value := some (.str ("Phase " ++ jsToString e.1)) }]
    else []

/-- `validatePhaseSlotSaturation` of validation.ts. -/
def validatePhaseSlotSaturation (tasks workers : List Row) : Option (List ValidationError) :=
  match phaseSlotsGo [] workers with
  | none => none
  | some phaseSlots =>
    match phaseReqGo [] tasks with
    | none => none
    | some phaseRequirements => some (saturationErrorsOf phaseSlots phaseRequirements)

/-! ## The orchestrator `validateAllData` -/

/-- A snapshot: the `workSheets` record, insertion-ordered. -/
abbrev Snapshot := List (String × List Row)

/-- The per-sheet stage of `validateAllData` for one sheet: required columns,
duplicate IDs, then the entity-specific checks, with the `AttributesJSON`
repair reflected in the returned rows. -/
def perSheet (sheetName : String) (data : List Row) :
    Option (List ValidationError × List Row) :=
  let e1 := validateRequiredColumns sheetName data
  let e2 := validateDuplicateIDs sheetName data
  let base := getBaseSheetName sheetName
  if base = "Clients" then
    let e3 := validatePriorityLevel data sheetName
    let r4 := validateAttributesJSON data sheetName
    some (e1 ++ e2 ++ e3 ++ r4.1, r4.2)
  else if base = "Workers" then
    match validateAvailableSlots data sheetName with
    | none => none
    | some e3 => some (e1 ++ e2 ++ e3, data)
  else if base = "Tasks" then
    some (e1 ++ e2 ++ validateDuration data sheetName, data)
  else some (e1 ++ e2, data)

/-- The `Object.entries(workSheets).forEach` loop of `validateAllData`. -/
def sheetsGo : Snapshot → Option (List ValidationError × Snapshot)
  | [] => some ([], [])
  | (name, data) :: rest =>
    match perSheet name data with
    | none => none
    | some (es, data') =>
      match sheetsGo rest with
      | none => none
      | some (es', rest') => some (es ++ es', (name, data') :: rest')

/-- `Object.keys(workSheets).find(name => getBaseSheetName(name) === base)`,
paired with the sheet's (possibly repaired) rows. -/
def findSheet (s : Snapshot) (base : String) : Option (String × List Row) :=
  s.find? fun e => getBaseSheetName e.1 == base

/-- The cross-sheet stage of `validateAllData`, run on the per-sheet errors
and the (possibly repaired) snapshot; `none` models an uncaught TypeError. -/
def crossStage (sheetErrors : List ValidationError) (updated : Snapshot) :
    Option (ValidationResult × Snapshot) :=
    let clientsSheet := findSheet updated "Clients"
    let workersSheet := findSheet updated "Workers"
    let tasksSheet := findSheet updated "Tasks"
    let refErrors : List ValidationError :=
      match clientsSheet, tasksSheet with
      | some (cn, cdata), some (_, tdata) =>
        (validateTaskReferences cdata tdata).map fun e => { e with sheetName := some cn }
      | _, _ => []
    let overloadErrors : List ValidationError :=
      match workersSheet with
      | some (wn, wdata) => (validateWorkerOverload wdata).map fun e => { e with sheetName := some wn }
      | none => []
    let circErrors : List ValidationError :=
      match clientsSheet with
      | some (_, cdata) => validateCircularCoRunGroups cdata
      | none => []
    let conflErrors : List ValidationError :=
      match tasksSheet with
      | some (_, tdata) => validateConflictingRules tdata
      | none => []
    let crossTail : Option (List ValidationError) :=
      match workersSheet, tasksSheet with
      | some (_, wdata), some (tn, tdata) =>
        let skillErrors := (validateSkillCoverage wdata tdata).map fun e => { e with sheetName := some tn }
        let concurrencyErrors :=
          (validateMaxConcurrency tdata wdata).map fun e => { e with sheetName := some tn }
        match validatePhaseSlotSaturation tdata wdata with
        | none => none
        | some sat =>
          some (skillErrors ++ concurrencyErrors ++ (sat.map fun e => { e with sheetName := some tn }))
      | _, _ => some []
    match crossTail with
    | none => none
    | some tail =>
      let allErrors := sheetErrors ++ refErrors ++ overloadErrors ++ tail ++ circErrors ++ conflErrors
      some ({ isValid := allErrors.length == 0, errors := allErrors }, updated)

/-- `validateAllData` of validation.ts.  The returned snapshot carries the
in-place `AttributesJSON` repairs; `none` models an uncaught TypeError. -/
def validateAllData (workSheets : Snapshot) : Option (ValidationResult × Snapshot) :=
  match sheetsGo workSheets with
  | none => none
  | some (sheetErrors, updated) => crossStage sheetErrors updated

/-- Worker row of the C6 counterexample snapshot: `MaxLoadPerPhase = -5`. -/
def exC6worker : Row :=
  [("WorkerID", .str "W1"), ("WorkerName", .str "B"), ("Skills", .str "s1"),
   ("AvailableSlots", .arr [.num 1, .num 2]), ("MaxLoadPerPhase", .num (-5)),
   ("WorkerGroup", .str "G"), ("QualificationLevel", .str "Q")]

/-- Task row of the C6 counterexample snapshot: `MaxConcurrent = -3`. -/
def exC6task : Row :=
  [("TaskID", .str "T1"), ("TaskName", .str "T"), ("Category", .str "C"),
   ("Duration", .num 1), ("RequiredSkills", .str "s1"), ("PreferredPhases", .arr []),
   ("MaxConcurrent", .num (-3))]

/-- A snapshot that is valid in every checked respect but has a negative
`MaxLoadPerPhase` and a negative `MaxConcurrent`. -/
def exC6 : Snapshot :=
  [("Clients", [[("ClientID", .str "C1"), ("ClientName", .str "A"), ("PriorityLevel", .num 3),
      ("RequestedTaskIDs", .str "T1"), ("GroupTag", .str "G"),
      ("AttributesJSON", .str "\x7b\"a\":1\x7d")]]),
   ("Workers", [exC6worker]),
   ("Tasks", [exC6task])]

/-- Two rows agree on every column except possibly `k`: same column list,
same values elsewhere. -/
def agreesExcept (k : String) (r r2 : Row) : Prop :=
  r2.map Prod.fst = r.map Prod.fst ∧ ∀ k2, k2 ≠ k → getF r2 k2 = getF r k2

/-- Transcription of the C3 claim wording (spec side, for comparison with
`validateDuplicateIDs`): row `k` is flagged exactly when its ID is truthy and
its string coercion equals the string-coerced ID of some earlier truthy-ID
row; `seen` carries IDs deemed seen before the window (empty at the top). -/
def specDupFlagged (c : String) (seen : List String) (data : List Row) (k : Nat) : Bool :=
  match data.get? k with
  | none => false
  | some row =>
    (getF row c).truthy &&
      (seen.contains (jsToString (getF row c)) ||
        (List.range k).any fun j =>
          match data.get? j with
          | some rowj => (getF rowj c).truthy &&
              (jsToString (getF rowj c) == jsToString (getF row c))
          | none => false)

/-- A row is the same as before, or differs only in `AttributesJSON`, which the
auto-repair branch replaced by `JSON.stringify(\x7bmessage: trimmed\x7d)` of a
nonempty unparsable string value. -/
def repairedFrom (r r2 : Row) : Prop :=
  r2 = r ∨
  (agreesExcept "AttributesJSON" r r2 ∧
   ∃ s : String, getF r "AttributesJSON" = .str s ∧ s ≠ "" ∧ jsonParse s = none ∧
     getF r2 "AttributesJSON" = .str (stringifyMessage (jsTrim s)))

/-- A client row whose `AttributesJSON` is the plain word `hello`, taken by
the auto-repair branch. -/
def exRepairClient : Row :=
  [("ClientID", .str "C1"), ("ClientName", .str "A"), ("PriorityLevel", .num 3),
   ("RequestedTaskIDs", .str ""), ("GroupTag", .str "G"),
   ("AttributesJSON", .str "hello")]

/-- A one-sheet snapshot exercising the `AttributesJSON` auto-repair. -/
def exRepairSnap : Snapshot := [("Clients", [exRepairClient])]

/-- `exRepairClient` after the in-place repair. -/
def exRepairClientFixed : Row :=
  setF exRepairClient "AttributesJSON" (.str (stringifyMessage (jsTrim "hello")))

/-- `exRepairSnap` after the in-place repair. -/
def exRepairSnapFixed : Snapshot := [("Clients", [exRepairClientFixed])]

/-- Boolean pairwise distinctness of a string list. -/
def specNodup : List String → Bool
  | [] => true
  | x :: xs => !xs.contains x && specNodup xs

/-- Per-sheet part of the C1 claim wording: all required fields present, IDs
unique (and truthy) within the sheet, and every numeric field in its domain
(`PriorityLevel` 1–5 on clients, `Duration` ≥ 1 on tasks, `AvailableSlots`
all-numeric on workers). -/
def specSheetOK (name : String) (data : List Row) : Bool :=
  let base := getBaseSheetName name
  (match REQUIRED_COLUMNS base with
   | some req => data.all fun row => req.all fun col => !((getF row col) == JSVal.undef)
   | none => true) &&
  (match idColumnOf base with
   | some c =>
     specNodup (data.map fun row => jsToString (getF row c)) &&
       data.all fun row => (getF row c).truthy
   | none => true) &&
  (if base = "Clients" then
     data.all fun row =>
       match jsToNumber (getF row "PriorityLevel") with
       | some q => decide (1 ≤ q) && decide (q ≤ 5)
       | none => false
   else true) &&
  (if base = "Tasks" then
     data.all fun row =>
       match jsToNumber (getF row "Duration") with
       | some q => decide (1 ≤ q)
       | none => false
   else true) &&
  (if base = "Workers" then
     data.all fun row =>
       match asArr (parseNumberArray (getF row "AvailableSlots")) with
       | some slots => slots.all fun x => (jsToNumber x).isSome
       | none => false
   else true)

/-- "Per-phase supply is at least per-phase demand", over the phase maps the
code builds (both must be buildable, i.e. slots and phases are arrays). -/
def specSupplyDemandOK (wdata tdata : List Row) : Bool :=
  match phaseSlotsGo [] wdata, phaseReqGo [] tdata with
  | some S, some R => R.all fun e => !(jsGtB e.2 (orZero (mapGet S e.1)))
  | _, _ => false

/-- Transcription of the C1 claim's hypothesis list (spec side): required
fields present, IDs unique, `RequestedTaskIDs` entries resolve to existing
`TaskID`s, every required skill held by some worker, numeric fields in their
domains, `AvailableSlots` count at least `MaxLoadPerPhase`, and per-phase
supply at least per-phase demand. -/
def specC1Valid (s : Snapshot) : Bool :=
  (s.all fun e => specSheetOK e.1 e.2) &&
  (match findSheet s "Clients", findSheet s "Tasks" with
   | some (_, cdata), some (_, tdata) =>
     cdata.all fun row => (parseCSVList (getF row "RequestedTaskIDs")).all fun tid =>
       tdata.any fun t => JSVal.beq (getF t "TaskID") (.str tid)
   | _, _ => true) &&
  (match findSheet s "Workers", findSheet s "Tasks" with
   | some (_, wdata), some (_, tdata) =>
     (tdata.all fun task => (parseCSVList (getF task "RequiredSkills")).all fun sk =>
       wdata.any fun w => (parseCSVList (getF w "Skills")).contains sk) &&
     specSupplyDemandOK wdata tdata
   | _, _ => true) &&
  (match findSheet s "Workers" with
   | some (_, wdata) =>
     wdata.all fun w =>
       !(jsLtB (jsToNumber (jsLengthVal (parseNumberArray (getF w "AvailableSlots"))))
           (jsToNumber (getF w "MaxLoadPerPhase")))
   | none => true)

/-- A client row's `AttributesJSON` produces no error: absent/non-string or
empty, parsable, or taken silently by the auto-repair branch. -/
def specAttrOK (row : Row) : Bool :=
  match getF row "AttributesJSON" with
  | .str s =>
    if s = "" then true
    else
      match jsonParse s with
      | some _ => true
      | none =>
        !startsWithChars (jsTrim s).data ['\x7b'] && !startsWithChars (jsTrim s).data ['['] &&
          !(jsTrim s).data.contains ':'
  | _ => true

/-- The amended C1 validity: the claim's hypothesis list plus the two checks
the code also runs — `MaxConcurrent` at most the number of qualified workers,
and `AttributesJSON` parsable (or auto-repairable) on every client row. -/
def specC1ValidAmended (s : Snapshot) : Bool :=
  specC1Valid s &&
  (match findSheet s "Workers", findSheet s "Tasks" with
   | some (_, wdata), some (_, tdata) =>
     tdata.all fun task =>
       !(jsLtB (some (((wdata.filter fun w =>
             (parseCSVList (getF task "RequiredSkills")).any fun sk =>
               (parseCSVList (getF w "Skills")).contains sk).length : Nat) : ℚ))
           (jsToNumber (getF task "MaxConcurrent")))
   | _, _ => true) &&
  (s.all fun e =>
    if getBaseSheetName e.1 = "Clients" then e.2.all specAttrOK else true)

/-- Client row of the C1 counterexample (fully valid). -/
def exC1client : Row :=
  [("ClientID", .str "C1"), ("ClientName", .str "A"), ("PriorityLevel", .num 3),
   ("RequestedTaskIDs", .str "T1"), ("GroupTag", .str "G"),
   ("AttributesJSON", .str "\x7b\"a\":1\x7d")]

/-- Worker row of the C1 counterexample (two slots, load 2, skill `s1`). -/
def exC1worker : Row :=
  [("WorkerID", .str "W1"), ("WorkerName", .str "B"), ("Skills", .str "s1"),
   ("AvailableSlots", .arr [.num 1, .num 2]), ("MaxLoadPerPhase", .num 2),
   ("WorkerGroup", .str "G"), ("QualificationLevel", .str "Q")]

/-- Task row of the C1 counterexample: `MaxConcurrent = 2` but only one worker
holds skill `s1`. -/
def exC1task : Row :=
  [("TaskID", .str "T1"), ("TaskName", .str "T"), ("Category", .str "C"),
   ("Duration", .num 1), ("RequiredSkills", .str "s1"),
   ("PreferredPhases", .arr [.num 1]), ("MaxConcurrent", .num 2)]

/-- The C1 counterexample snapshot: every condition the claim lists holds,
yet `validateMaxConcurrency` reports an error. -/
def exC1 : Snapshot :=
  [("Clients", [exC1client]), ("Workers", [exC1worker]), ("Tasks", [exC1task])]

/-- `exC1task` with `MaxConcurrent` lowered to the qualified-worker count. -/
def exC1taskOk : Row := setF exC1task "MaxConcurrent" (.num 1)

/-- A snapshot satisfying the amended C1 validity. -/
def exC1ok : Snapshot :=
  [("Clients", [exC1client]), ("Workers", [exC1worker]), ("Tasks", [exC1taskOk])]

/-! ## Theorems on the claims -/

theorem jsToLength_pos_some {a b : Option ℚ} (h : 0 < jsToLength (jsAdd (jsSub b a) (some 1))) :
    ∃ x y : ℚ, a = some x ∧ b = some y := by
  cases a with
  | none => simp [jsSub, jsAdd, jsToLength] at h
  | some x =>
    cases b with
    | none => simp [jsSub, jsAdd, jsToLength] at h
    | some y => exact ⟨x, y, rfl, rfl⟩

/-- C2 counterexample: the claim asserts `parseNumberSequence("2,4,5") = [2,4,5]`,
but the code has no comma-splitting branch — the string (containing no `-`)
goes to `JSON.parse`, which rejects `2,4,5`, and the catch returns `[]`. -/
theorem C2_counterexample :
    parseNumberArray (.str "2,4,5") = .arr [] ∧
    JSVal.arr ([] : List JSVal) ≠ JSVal.arr [.num 2, .num 4, .num 5] := by
  refine ⟨rfl, ?_⟩
  intro h
  injection h with h'
  exact absurd h' (by simp)

/-- C2 amended: `"1-3" ↦ [1,2,3]`, `"[2,4,5]" ↦ [2,4,5]`, `"not-a-number" ↦ []`
— but `"2,4,5" ↦ []`: a bare comma list is rejected JSON and there is no
comma-splitting fallback.  Moreover any string containing `-` takes the range
branch, never reaching `JSON.parse`: its result is always an array of
(non-NaN) numbers. -/
theorem C2_amended :
    parseNumberArray (.str "1-3") = .arr [.num 1, .num 2, .num 3] ∧
    parseNumberArray (.str "[2,4,5]") = .arr [.num 2, .num 4, .num 5] ∧
    parseNumberArray (.str "2,4,5") = .arr [] ∧
    parseNumberArray (.str "not-a-number") = .arr [] ∧
    (∀ s : String, s.data.contains '-' = true →
      ∃ xs : List JSVal, parseNumberArray (.str s) = .arr xs ∧
        ∀ v ∈ xs, ∃ q : ℚ, v = JSVal.num q) := by
  refine ⟨rfl, rfl, rfl, rfl, ?_⟩
  intro s hs
  simp only [parseNumberArray, hs, if_true]
  refine ⟨_, rfl, ?_⟩
  intro v hv
  simp only [List.mem_map, List.mem_range] at hv
  obtain ⟨i, hi, rfl⟩ := hv
  obtain ⟨x, y, hx, hy⟩ := jsToLength_pos_some (Nat.zero_lt_of_lt hi)
  rw [hx]
  exact ⟨_, rfl⟩

/-- C2 witness: the range branch applies to `"a-b"` (which contains `-`). -/
theorem C2_amended_witness :
    ("a-b".data.contains '-' = true) ∧
    ∃ xs : List JSVal, parseNumberArray (.str "a-b") = .arr xs ∧
      ∀ v ∈ xs, ∃ q : ℚ, v = JSVal.num q :=
  ⟨by decide, C2_amended.2.2.2.2 "a-b" (by decide)⟩

theorem attrRowStep_rowIndex {n : String} {i : Nat} {r : Row} :
    ∀ e ∈ (attrRowStep n i r).1, e.rowIndex = (i : Int) := by
  intro e he
  unfold attrRowStep at he
  repeat' split at he
  all_goals simp_all
  all_goals (split at he <;> simp_all)

theorem attrGo_rowIndex_ge {n : String} {k : Nat} {data : List Row} :
    ∀ e ∈ (attrGo n k data).1, (k : Int) ≤ e.rowIndex := by
  induction data generalizing k with
  | nil => intro e he; simp [attrGo] at he
  | cons r rs ih =>
    intro e he
    simp only [attrGo, List.mem_append] at he
    rcases he with he | he
    · rw [attrRowStep_rowIndex e he]
    · exact le_trans (by omega) (ih e he)

theorem attrGo_rows_get {n : String} {k : Nat} {data : List Row} {i : Nat} :
    (attrGo n k data).2.get? i = (data.get? i).map fun r => (attrRowStep n (k + i) r).2 := by
  induction data generalizing k i with
  | nil => simp [attrGo]
  | cons r rs ih =>
    cases i with
    | zero => simp [attrGo]
    | succ i' =>
      simp only [attrGo, List.get?_cons_succ]
      rw [show (k + (i' + 1)) = (k + 1 + i') from by omega]
      exact ih

theorem attrGo_count {n : String} {k : Nat} {data : List Row} {i : Nat} :
    (attrGo n k data).1.countP (fun e => e.rowIndex == ((k + i : Nat) : Int)) =
      match data.get? i with
      | some r => (attrRowStep n (k + i) r).1.length
      | none => 0 := by
  induction data generalizing k i with
  | nil => simp [attrGo]
  | cons r rs ih =>
    cases i with
    | zero =>
      simp only [attrGo, List.countP_append, List.get?_cons_zero, Nat.add_zero]
      have h1 : (attrRowStep n k r).1.countP (fun e => e.rowIndex == ((k : Nat) : Int)) =
          (attrRowStep n k r).1.length := by
        apply List.countP_eq_length.mpr
        intro e he
        simp [attrRowStep_rowIndex e he]
      have h2 : (attrGo n (k + 1) rs).1.countP (fun e => e.rowIndex == ((k : Nat) : Int)) = 0 := by
        apply List.countP_eq_zero.mpr
        intro e he
        have := attrGo_rowIndex_ge e he
        simp only [beq_iff_eq]
        omega
      rw [h1, h2]
      omega
    | succ i' =>
      simp only [attrGo, List.countP_append, List.get?_cons_succ]
      have h1 : (attrRowStep n k r).1.countP (fun e => e.rowIndex == ((k + (i' + 1) : Nat) : Int)) = 0 := by
        apply List.countP_eq_zero.mpr
        intro e he
        have := attrRowStep_rowIndex e he
        simp only [beq_iff_eq]
        omega
      rw [h1]
      have := ih (k := k + 1) (i := i')
      rw [show (k + 1 + i' : Nat) = (k + (i' + 1) : Nat) by omega] at this
      rw [this]
      omega

theorem validateAttributesJSON_clients (data : List Row) :
    validateAttributesJSON data "Clients" = attrGo "Clients" 0 data := rfl

theorem attrRowStep_repair {n : String} {i : Nat} {r : Row} {s : String}
    (hA : getF r "AttributesJSON" = .str s) (hne : s ≠ "") (hp : jsonParse s = none)
    (h1 : startsWithChars (jsTrim s).data ['\x7b'] = false)
    (h2 : startsWithChars (jsTrim s).data ['['] = false)
    (h3 : (jsTrim s).data.contains ':' = false) :
    attrRowStep n i r = ([], setF r "AttributesJSON" (.str (stringifyMessage (jsTrim s)))) := by
  have h3' : ':' ∉ (jsTrim s).data := by simpa using h3
  simp [attrRowStep, hA, hp, hne, h1, h2, h3']

theorem attrRowStep_jsonError {n : String} {i : Nat} {r : Row} {s : String}
    (hA : getF r "AttributesJSON" = .str s) (hne : s ≠ "") (hp : jsonParse s = none)
    (hc : startsWithChars (jsTrim s).data ['\x7b'] = true ∨
      startsWithChars (jsTrim s).data ['['] = true ∨ (jsTrim s).data.contains ':' = true) :
    attrRowStep n i r =
      ([{ type := "error", message := "Invalid JSON in AttributesJSON: " ++ s,
          rowIndex := (i : Int), column := "AttributesJSON", sheetName := some n,
          value := some (.str s) }], r) := by
  rcases hc with h | h | h
  · simp [attrRowStep, hA, hp, hne, h]
  · simp [attrRowStep, hA, hp, hne, h]
  · have h' : ':' ∈ (jsTrim s).data := by simpa using h
    simp [attrRowStep, hA, hp, hne, h']

/-- C4 counterexample.  The claim keys the repair on the trimmed text
*containing* no `{`, `[` or `:` — but the code tests `startsWith` for the
braces: `"a {"` contains `{` yet is auto-repaired with no error (the claim
predicts one error, value unchanged).  The claim also covers *every* failing
string, but the empty string is falsy and skipped entirely: `""` fails
`JSON.parse` and contains none of `{`, `[`, `:`, yet is left unchanged with
no error (the claim predicts a repair to `{"message":""}`). -/
theorem C4_counterexample :
    ((jsTrim "a \x7b").data.contains '\x7b' = true ∧
      (jsTrim "a \x7b").data.contains ':' = false ∧
      jsonParse "a \x7b" = none ∧
      validateAttributesJSON [[("AttributesJSON", JSVal.str "a \x7b")]] "Clients" =
        ([], [[("AttributesJSON", JSVal.str "\x7b\"message\":\"a \x7b\"\x7d")]])) ∧
    (jsonParse "" = none ∧
      validateAttributesJSON [[("AttributesJSON", JSVal.str "")]] "Clients" =
        ([], [[("AttributesJSON", JSVal.str "")]])) :=
  ⟨⟨rfl, rfl, rfl, rfl⟩, rfl, rfl⟩

/-- C4 (amended): for every client row whose `AttributesJSON` is a *non-empty*
string that fails to parse as JSON: if the trimmed text does not *start* with
`{` or `[` and contains no `:`, the value is auto-repaired in place to
`{"message": <trimmed text>}` and no error is emitted for that row; otherwise
the original string is left unchanged and exactly one error is emitted for
that cell.  In particular `"vip customer"` is stored as
`{"message":"vip customer"}` with no error, and `"{bad json"` yields an error
with the string preserved. -/
theorem C4_amended :
    (∀ (data : List Row) (i : Nat) (r : Row) (s : String),
      data.get? i = some r → getF r "AttributesJSON" = .str s → s ≠ "" →
      jsonParse s = none →
      ((startsWithChars (jsTrim s).data ['\x7b'] = false →
        startsWithChars (jsTrim s).data ['['] = false →
        (jsTrim s).data.contains ':' = false →
        (validateAttributesJSON data "Clients").2.get? i =
          some (setF r "AttributesJSON" (.str (stringifyMessage (jsTrim s)))) ∧
        (validateAttributesJSON data "Clients").1.countP
          (fun e => e.rowIndex == ((i : Nat) : Int)) = 0) ∧
      ((startsWithChars (jsTrim s).data ['\x7b'] = true ∨
          startsWithChars (jsTrim s).data ['['] = true ∨
          (jsTrim s).data.contains ':' = true) →
        (validateAttributesJSON data "Clients").2.get? i = some r ∧
        (validateAttributesJSON data "Clients").1.countP
          (fun e => e.rowIndex == ((i : Nat) : Int)) = 1))) ∧
    validateAttributesJSON [[("AttributesJSON", JSVal.str "vip customer")]] "Clients" =
      ([], [[("AttributesJSON", JSVal.str "\x7b\"message\":\"vip customer\"\x7d")]]) ∧
    validateAttributesJSON [[("AttributesJSON", JSVal.str "\x7bbad json")]] "Clients" =
      ([{ type := "error", message := "Invalid JSON in AttributesJSON: \x7bbad json",
          rowIndex := 0, column := "AttributesJSON", sheetName := some "Clients",
          value := some (.str "\x7bbad json") }],
        [[("AttributesJSON", JSVal.str "\x7bbad json")]]) := by
  refine ⟨?_, rfl, rfl⟩
  intro data i r s hget hA hne hp
  constructor
  · intro h1 h2 h3
    have hstep := attrRowStep_repair (n := "Clients") (i := i) hA hne hp h1 h2 h3
    have hcnt := @attrGo_count "Clients" 0 data i
    have hrows := @attrGo_rows_get "Clients" 0 data i
    simp only [Nat.zero_add] at hcnt hrows
    constructor
    · rw [validateAttributesJSON_clients, hrows, hget]
      simp [hstep]
    · rw [validateAttributesJSON_clients, hcnt, hget]
      simp [hstep]
  · intro hc
    have hstep := attrRowStep_jsonError (n := "Clients") (i := i) hA hne hp hc
    have hcnt := @attrGo_count "Clients" 0 data i
    have hrows := @attrGo_rows_get "Clients" 0 data i
    simp only [Nat.zero_add] at hcnt hrows
    constructor
    · rw [validateAttributesJSON_clients, hrows, hget]
      simp [hstep]
    · rw [validateAttributesJSON_clients, hcnt, hget]
      simp [hstep]

/-- C4 witness: the repair branch fires on the plain sentence `"plain note"`. -/
theorem C4_amended_witness :
    jsonParse "plain note" = none ∧
    (validateAttributesJSON [[("AttributesJSON", JSVal.str "plain note")]] "Clients").2.get? 0 =
      some (setF [("AttributesJSON", JSVal.str "plain note")] "AttributesJSON"
        (.str (stringifyMessage (jsTrim "plain note")))) ∧
    (validateAttributesJSON [[("AttributesJSON", JSVal.str "plain note")]] "Clients").1.countP
      (fun e => e.rowIndex == ((0 : Nat) : Int)) = 0 := by
  have h := (C4_amended.1 [[("AttributesJSON", JSVal.str "plain note")]] 0
      [("AttributesJSON", JSVal.str "plain note")] "plain note" rfl rfl (by decide) rfl).1
      rfl rfl rfl
  exact ⟨rfl, h.1, h.2⟩

/-- C9: for an empty sheet the required-column check emits nothing, even
though every required column is absent; for a non-empty sheet the result is
determined by the first row alone (the remaining rows are never consulted). -/
theorem C9_required_columns_first_row_only :
    (∀ name : String, validateRequiredColumns name [] = []) ∧
    (∀ (name : String) (r : Row) (rows rows' : List Row),
      validateRequiredColumns name (r :: rows) = validateRequiredColumns name (r :: rows')) := by
  constructor
  · intro name
    cases hc : REQUIRED_COLUMNS (getBaseSheetName name) <;>
      simp [validateRequiredColumns, hc]
  · intro name r rows rows'
    cases hc : REQUIRED_COLUMNS (getBaseSheetName name) <;>
      simp [validateRequiredColumns, hc]

theorem dupGo_mem {n c : String} {seen : List String} {k : Nat} {data : List Row} :
    ∀ e ∈ dupGo n c seen k data, ∃ (j : Nat) (row : Row),
      data.get? j = some row ∧ e.rowIndex = ((k + j : Nat) : Int) ∧
      (getF row c).truthy = true := by
  induction data generalizing seen k with
  | nil => intro e he; simp [dupGo] at he
  | cons r rs ih =>
    intro e he
    simp only [dupGo, List.mem_append] at he
    rcases he with he | he
    · by_cases hcond : ((getF r c).truthy && seen.contains (jsToString (getF r c))) = true
      · rw [if_pos hcond] at he
        simp only [List.mem_singleton] at he
        subst he
        exact ⟨0, r, rfl, by simp, (Bool.and_eq_true_iff.mp hcond).1⟩
      · rw [if_neg hcond] at he
        simp at he
    · obtain ⟨j, row, hg, hr, ht⟩ := ih e he
      refine ⟨j + 1, row, by simpa using hg, ?_, ht⟩
      rw [hr]
      congr 1
      omega

theorem dupGo_falsy_all {n c : String} {seen : List String} {k : Nat} {data : List Row}
    (h : ∀ row ∈ data, (getF row c).truthy = false) :
    dupGo n c seen k data = [] := by
  induction data generalizing seen k with
  | nil => rfl
  | cons r rs ih =>
    have hr := h r (by simp)
    simp only [dupGo, hr]
    simpa using ih fun row hm => h row (by simp [hm])

/-- C10: rows whose ID is falsy are skipped entirely by duplicate detection:
every emitted duplicate error points at a row whose ID is truthy, and any
number of rows all sharing an empty ID yields no duplicate errors at all. -/
theorem C10_falsy_ids_skipped :
    (∀ (name : String) (data : List Row) (c : String),
      idColumnOf (getBaseSheetName name) = some c →
      ∀ e ∈ validateDuplicateIDs name data, ∃ (j : Nat) (row : Row),
        data.get? j = some row ∧ e.rowIndex = ((j : Nat) : Int) ∧
        (getF row c).truthy = true) ∧
    (∀ n : Nat,
      validateDuplicateIDs "Clients" (List.replicate n [("ClientID", JSVal.str "")]) = []) := by
  constructor
  · intro name data c hc e he
    unfold validateDuplicateIDs at he
    rw [hc] at he
    obtain ⟨j, row, hg, hr, ht⟩ := dupGo_mem e he
    exact ⟨j, row, hg, by simpa using hr, ht⟩
  · intro nrep
    unfold validateDuplicateIDs
    rw [show idColumnOf (getBaseSheetName "Clients") = some "ClientID" from rfl]
    apply dupGo_falsy_all
    intro row hm
    rw [List.eq_of_mem_replicate hm]
    rfl

/-- C10 witness: a concrete duplicate error is attributed to a truthy-ID row. -/
theorem C10_falsy_ids_skipped_witness :
    ∃ (j : Nat) (row : Row),
      ([[("ClientID", JSVal.str "C1")], [("ClientID", JSVal.str "C1")]] : List Row).get? j =
        some row ∧
      ({ type := "error", message := "Duplicate ClientID: C1", rowIndex := 1,
         column := "ClientID", sheetName := some "Clients",
         value := some (JSVal.str "C1") } : ValidationError).rowIndex = ((j : Nat) : Int) ∧
      (getF row "ClientID").truthy = true := by
  apply C10_falsy_ids_skipped.1 "Clients" _ "ClientID" rfl
  rw [show validateDuplicateIDs "Clients"
      [[("ClientID", JSVal.str "C1")], [("ClientID", JSVal.str "C1")]] =
      [{ type := "error", message := "Duplicate ClientID: C1", rowIndex := 1,
         column := "ClientID", sheetName := some "Clients",
         value := some (JSVal.str "C1") }] from rfl]
  exact List.mem_singleton.mpr rfl

theorem dupGo_rowIndex_ge {n c : String} {seen : List String} {k : Nat} {data : List Row} :
    ∀ e ∈ dupGo n c seen k data, (k : Int) ≤ e.rowIndex := by
  induction data generalizing seen k with
  | nil => intro e he; simp [dupGo] at he
  | cons r rs ih =>
    intro e he
    simp only [dupGo, List.mem_append] at he
    rcases he with he | he
    · split at he
      · simp only [List.mem_singleton] at he
        subst he
        simp
      · simp at he
    · exact le_trans (by omega) (ih e he)

theorem beqCommStr (a b : String) : (a == b) = (b == a) := by
  by_cases h : a = b
  · subst h; rfl
  · have h1 : (a == b) = false := by rw [beq_eq_false_iff_ne]; exact h
    have h2 : (b == a) = false := by rw [beq_eq_false_iff_ne]; exact fun hh => h hh.symm
    rw [h1, h2]

theorem specDupFlagged_cons {c : String} {seen : List String} {r : Row} {rs : List Row}
    {k : Nat} :
    specDupFlagged c seen (r :: rs) (k + 1) =
      specDupFlagged c (if (getF r c).truthy then jsToString (getF r c) :: seen else seen)
        rs k := by
  simp only [specDupFlagged, List.get?_cons_succ]
  cases hg : rs.get? k with
  | none => rfl
  | some row =>
    simp only []
    congr 1
    rw [List.range_succ_eq_map]
    simp only [List.any_cons, List.any_map]
    have hfun : ((fun j =>
        match (r :: rs).get? j with
        | some rowj => (getF rowj c).truthy &&
            (jsToString (getF rowj c) == jsToString (getF row c))
        | none => false) ∘ Nat.succ) = (fun j =>
        match rs.get? j with
        | some rowj => (getF rowj c).truthy &&
            (jsToString (getF rowj c) == jsToString (getF row c))
        | none => false) := by
      funext j
      simp [Function.comp]
    rw [hfun]
    simp only [List.get?_cons_zero]
    by_cases ht : (getF r c).truthy = true
    · rw [if_pos ht, List.contains_cons, ht, Bool.true_and,
        beqCommStr (jsToString (getF row c)) (jsToString (getF r c))]
      simp [Bool.or_comm, Bool.or_left_comm, Bool.or_assoc]
    · have ht' : (getF r c).truthy = false := by
        cases h : (getF r c).truthy
        · rfl
        · exact absurd h ht
      rw [if_neg (by simp [ht']), ht', Bool.false_and, Bool.false_or]

theorem dupGo_countP {n c : String} {data : List Row} :
    ∀ {seen : List String} {i k : Nat},
      (dupGo n c seen i data).countP (fun e => e.rowIndex == ((i + k : Nat) : Int)) =
        if specDupFlagged c seen data k then 1 else 0 := by
  induction data with
  | nil => intro seen i k; simp [dupGo, specDupFlagged]
  | cons r rs ih =>
    intro seen i k
    simp only [dupGo, List.countP_append]
    cases k with
    | zero =>
      have hrest : (dupGo n c (if (getF r c).truthy then jsToString (getF r c) :: seen else seen)
          (i + 1) rs).countP (fun e => e.rowIndex == ((i + 0 : Nat) : Int)) = 0 := by
        apply List.countP_eq_zero.mpr
        intro e he
        have := dupGo_rowIndex_ge e he
        simp only [beq_iff_eq]
        omega
      rw [hrest]
      by_cases hcond : ((getF r c).truthy && seen.contains (jsToString (getF r c))) = true
      · rw [if_pos hcond]
        simp only [specDupFlagged, List.get?_cons_zero, List.range_zero, List.any_nil,
          Bool.or_false]
        rw [if_pos hcond]
        simp
      · rw [if_neg hcond]
        simp only [specDupFlagged, List.get?_cons_zero, List.range_zero, List.any_nil,
          Bool.or_false]
        rw [if_neg hcond]
        simp
    | succ k' =>
      have hrec := @ih (if (getF r c).truthy then jsToString (getF r c) :: seen else seen)
        (i + 1) k'
      rw [show ((i + 1) + k' : Nat) = (i + (k' + 1) : Nat) from by omega] at hrec
      rw [hrec, ← specDupFlagged_cons]
      have hne : ((i : Int) == ((i + (k' + 1) : Nat) : Int)) = false := by
        simp only [beq_eq_false_iff_ne, ne_eq]
        intro hcontra
        omega
      by_cases hcond : ((getF r c).truthy && seen.contains (jsToString (getF r c))) = true
      · rw [if_pos hcond]
        simp [List.countP_cons, hne]
        omega
      · rw [if_neg hcond]
        simp

/-- C3: in a classified sheet, row `k` receives exactly one duplicate-ID error
when its (truthy) string-coerced ID equals the string-coerced ID of some
earlier truthy-ID row, and none otherwise — so first occurrences are never
flagged.  In particular, for three client rows where rows 0 and 2 share
`ClientID = "C001"`, exactly one error is emitted, at row index 2. -/
theorem C3_duplicate_second_and_later :
    (∀ (name c : String) (data : List Row) (k : Nat),
      idColumnOf (getBaseSheetName name) = some c →
      (validateDuplicateIDs name data).countP (fun e => e.rowIndex == ((k : Nat) : Int)) =
        if specDupFlagged c [] data k then 1 else 0) ∧
    validateDuplicateIDs "Clients"
        [[("ClientID", JSVal.str "C001")], [("ClientID", JSVal.str "C002")],
          [("ClientID", JSVal.str "C001")]] =
      [{ type := "error", message := "Duplicate ClientID: C001", rowIndex := 2,
         column := "ClientID", sheetName := some "Clients",
         value := some (JSVal.str "C001") }] := by
  constructor
  · intro name c data k hc
    unfold validateDuplicateIDs
    rw [hc]
    have h := @dupGo_countP name c data [] 0 k
    simpa using h
  · rfl

/-- C3 witness: the characterization applied to the three-client example
(row 2 is flagged exactly once; `specDupFlagged` evaluates to `true` there). -/
theorem C3_duplicate_second_and_later_witness :
    (validateDuplicateIDs "Clients" [[("ClientID", JSVal.str "C001")],
        [("ClientID", JSVal.str "C002")], [("ClientID", JSVal.str "C001")]]).countP
      (fun e => e.rowIndex == ((2 : Nat) : Int)) =
      if specDupFlagged "ClientID" [] [[("ClientID", JSVal.str "C001")],
        [("ClientID", JSVal.str "C002")], [("ClientID", JSVal.str "C001")]] 2 then 1 else 0 :=
  C3_duplicate_second_and_later.1 "Clients" "ClientID" _ 2 rfl

theorem eachRow_mem {f : Nat → Row → List ValidationError} {k : Nat} {data : List Row} :
    ∀ e ∈ eachRow f k data, ∃ (i : Nat) (r : Row), data.get? i = some r ∧ e ∈ f (k + i) r := by
  induction data generalizing k with
  | nil => intro e he; simp [eachRow] at he
  | cons r rs ih =>
    intro e he
    simp only [eachRow, List.mem_append] at he
    rcases he with he | he
    · exact ⟨0, r, rfl, by simpa using he⟩
    · obtain ⟨i, r', hg, hm⟩ := ih e he
      exact ⟨i + 1, r', by simpa using hg, by rw [show k + (i + 1) = k + 1 + i from by omega]; exact hm⟩

theorem eachRow_rowIndex_ge {f : Nat → Row → List ValidationError} {k : Nat} {data : List Row}
    (hf : ∀ (i : Nat) (r : Row), ∀ e ∈ f i r, e.rowIndex = (i : Int)) :
    ∀ e ∈ eachRow f k data, (k : Int) ≤ e.rowIndex := by
  intro e he
  obtain ⟨i, r, _, hm⟩ := eachRow_mem e he
  rw [hf _ _ e hm]
  omega

theorem eachRow_countP {f : Nat → Row → List ValidationError} {k : Nat} {data : List Row}
    {i : Nat} (hf : ∀ (j : Nat) (r : Row), ∀ e ∈ f j r, e.rowIndex = (j : Int)) :
    (eachRow f k data).countP (fun e => e.rowIndex == ((k + i : Nat) : Int)) =
      match data.get? i with
      | some r => (f (k + i) r).length
      | none => 0 := by
  induction data generalizing k i with
  | nil => simp [eachRow]
  | cons r rs ih =>
    cases i with
    | zero =>
      simp only [eachRow, List.countP_append, List.get?_cons_zero, Nat.add_zero]
      have h1 : (f k r).countP (fun e => e.rowIndex == ((k : Nat) : Int)) = (f k r).length := by
        apply List.countP_eq_length.mpr
        intro e he
        simp [hf _ _ e he]
      have h2 : (eachRow f (k + 1) rs).countP (fun e => e.rowIndex == ((k : Nat) : Int)) = 0 := by
        apply List.countP_eq_zero.mpr
        intro e he
        have := eachRow_rowIndex_ge hf e he
        simp only [beq_iff_eq]
        omega
      rw [h1, h2]
      omega
    | succ i' =>
      simp only [eachRow, List.countP_append, List.get?_cons_succ]
      have h1 : (f k r).countP (fun e => e.rowIndex == ((k + (i' + 1) : Nat) : Int)) = 0 := by
        apply List.countP_eq_zero.mpr
        intro e he
        have := hf _ _ e he
        simp only [beq_iff_eq]
        omega
      rw [h1]
      have h2 := ih (k := k + 1) (i := i')
      rw [show (k + 1 + i' : Nat) = (k + (i' + 1) : Nat) from by omega] at h2
      rw [h2]
      omega

/-- C6 counterexample: the claim asserts `MaxLoadPerPhase ≥ 0` and
`MaxConcurrent ≥ 0` range checks, but no such checks exist: a snapshot that
is valid in every other respect but has `MaxLoadPerPhase = -5` and
`MaxConcurrent = -3` passes `validateAllData` with no error whatsoever. -/
theorem C6_counterexample :
    ("Workers", [exC6worker]) ∈ exC6 ∧
    jsToNumber (getF exC6worker "MaxLoadPerPhase") = some (-5) ∧
    ("Tasks", [exC6task]) ∈ exC6 ∧
    jsToNumber (getF exC6task "MaxConcurrent") = some (-3) ∧
    validateAllData exC6 = some ({ isValid := true, errors := [] }, exC6) :=
  ⟨by simp [exC6], rfl, by simp [exC6], rfl, rfl⟩

theorem priorityRowCheck_rowIndex {n : String} :
    ∀ (j : Nat) (row : Row), ∀ e ∈ priorityRowCheck n j row, e.rowIndex = (j : Int) := by
  intro j row e he
  simp only [priorityRowCheck] at he
  split at he
  · simp only [List.mem_singleton] at he
    subst he
    rfl
  · simp at he

theorem durationRowCheck_rowIndex {n : String} :
    ∀ (j : Nat) (row : Row), ∀ e ∈ durationRowCheck n j row, e.rowIndex = (j : Int) := by
  intro j row e he
  simp only [durationRowCheck] at he
  split at he
  · simp only [List.mem_singleton] at he
    subst he
    rfl
  · simp at he

/-- C6 (amended): the entity-level range checks are exactly
`PriorityLevel ∈ [1,5]` on client rows and `Duration ≥ 1` on task rows, with
a non-numeric (NaN-coercing) value producing the same single error kind
(same column, type and count) as an out-of-range one; there is no
`MaxLoadPerPhase ≥ 0` or `MaxConcurrent ≥ 0` check.  `PriorityLevel` 0 and 6
each produce a PriorityLevel error while 1 and 5 produce none, and a
non-numeric PriorityLevel produces one as well. -/
theorem C6_amended :
    (∀ (data : List Row) (i : Nat) (r : Row), data.get? i = some r →
      ((validatePriorityLevel data "Clients").countP
          (fun e => e.rowIndex == ((i : Nat) : Int)) =
        match jsToNumber (getF r "PriorityLevel") with
        | some q => if q < 1 ∨ 5 < q then 1 else 0
        | none => 1) ∧
      ∀ e ∈ validatePriorityLevel data "Clients",
        e.column = "PriorityLevel" ∧ e.type = "error") ∧
    (∀ (data : List Row) (i : Nat) (r : Row), data.get? i = some r →
      ((validateDuration data "Tasks").countP
          (fun e => e.rowIndex == ((i : Nat) : Int)) =
        match jsToNumber (getF r "Duration") with
        | some q => if q < 1 then 1 else 0
        | none => 1) ∧
      ∀ e ∈ validateDuration data "Tasks", e.column = "Duration" ∧ e.type = "error") ∧
    (validatePriorityLevel [[("PriorityLevel", JSVal.num 0)]] "Clients").length = 1 ∧
    (validatePriorityLevel [[("PriorityLevel", JSVal.num 6)]] "Clients").length = 1 ∧
    validatePriorityLevel [[("PriorityLevel", JSVal.num 1)]] "Clients" = [] ∧
    validatePriorityLevel [[("PriorityLevel", JSVal.num 5)]] "Clients" = [] ∧
    (validatePriorityLevel [[("PriorityLevel", JSVal.str "abc")]] "Clients").length = 1 := by
  refine ⟨?_, ?_, rfl, rfl, rfl, rfl, rfl⟩
  · intro data i r hget
    have hv : validatePriorityLevel data "Clients" =
        eachRow (priorityRowCheck "Clients") 0 data := by
      unfold validatePriorityLevel
      rw [if_neg (by decide)]
    constructor
    · rw [hv]
      have hcnt := @eachRow_countP (priorityRowCheck "Clients") 0 data
        i (priorityRowCheck_rowIndex (n := "Clients"))
      simp only [Nat.zero_add] at hcnt
      rw [hcnt, hget]
      unfold priorityRowCheck
      cases h : jsToNumber (getF r "PriorityLevel") with
      | none => simp [h, jsLtB, jsGtB]
      | some q =>
        simp only [h, jsLtB, jsGtB, Bool.or_eq_true, decide_eq_true_eq]
        split_ifs with hA hB
        all_goals first | rfl | (exfalso; simp_all)
    · intro e he
      rw [hv] at he
      obtain ⟨j, row, hg, hm⟩ := eachRow_mem e he
      simp only [priorityRowCheck] at hm
      split at hm
      · simp only [List.mem_singleton] at hm
        subst hm
        exact ⟨rfl, rfl⟩
      · simp at hm
  · intro data i r hget
    have hv : validateDuration data "Tasks" = eachRow (durationRowCheck "Tasks") 0 data := by
      unfold validateDuration
      rw [if_neg (by decide)]
    constructor
    · rw [hv]
      have hcnt := @eachRow_countP (durationRowCheck "Tasks") 0 data
        i (durationRowCheck_rowIndex (n := "Tasks"))
      simp only [Nat.zero_add] at hcnt
      rw [hcnt, hget]
      unfold durationRowCheck
      cases h : jsToNumber (getF r "Duration") with
      | none => simp [h, jsLtB]
      | some q =>
        simp only [h, jsLtB, Bool.or_eq_true, decide_eq_true_eq]
        split_ifs with hA hB
        all_goals first | rfl | (exfalso; simp_all)
    · intro e he
      rw [hv] at he
      obtain ⟨j, row, hg, hm⟩ := eachRow_mem e he
      simp only [durationRowCheck] at hm
      split at hm
      · simp only [List.mem_singleton] at hm
        subst hm
        exact ⟨rfl, rfl⟩
      · simp at hm

/-- C6 witness: the PriorityLevel characterization evaluated at a row with
`PriorityLevel = 0` (one error). -/
theorem C6_amended_witness :
    (validatePriorityLevel [[("PriorityLevel", JSVal.num 0)]] "Clients").countP
      (fun e => e.rowIndex == ((0 : Nat) : Int)) =
      match jsToNumber (getF [("PriorityLevel", JSVal.num 0)] "PriorityLevel") with
      | some q => if q < 1 ∨ 5 < q then 1 else 0
      | none => 1 :=
  (C6_amended.1 [[("PriorityLevel", JSVal.num 0)]] 0 [("PriorityLevel", JSVal.num 0)] rfl).1

theorem ratMulDen (a : ℚ) (ha : ((a.den : ℚ)) ≠ 0) : (a : ℚ) * a.den = a.num := by
  nth_rewrite 1 [← Rat.num_div_den a]
  exact div_mul_cancel₀ _ ha

theorem ratAdd_eq (a b : ℚ) : ratAdd a b = a + b := by
  have ha : ((a.den : ℚ)) ≠ 0 := by exact_mod_cast a.den_nz
  have hb : ((b.den : ℚ)) ≠ 0 := by exact_mod_cast b.den_nz
  have h1 := ratMulDen a ha
  have h2 := ratMulDen b hb
  rw [ratAdd, Rat.mkRat_eq_div]
  push_cast
  rw [div_eq_iff (mul_ne_zero ha hb)]
  linear_combination (-(b.den : ℚ)) * h1 + (-(a.den : ℚ)) * h2

theorem ratSub_eq (a b : ℚ) : ratSub a b = a - b := by
  have ha : ((a.den : ℚ)) ≠ 0 := by exact_mod_cast a.den_nz
  have hb : ((b.den : ℚ)) ≠ 0 := by exact_mod_cast b.den_nz
  have h1 := ratMulDen a ha
  have h2 := ratMulDen b hb
  rw [ratSub, Rat.mkRat_eq_div]
  push_cast
  rw [div_eq_iff (mul_ne_zero ha hb)]
  linear_combination (-(b.den : ℚ)) * h1 + ((a.den : ℚ)) * h2

theorem ratMul_eq (a b : ℚ) : ratMul a b = a * b := by
  have ha : ((a.den : ℚ)) ≠ 0 := by exact_mod_cast a.den_nz
  have hb : ((b.den : ℚ)) ≠ 0 := by exact_mod_cast b.den_nz
  have h1 := ratMulDen a ha
  have h2 := ratMulDen b hb
  rw [ratMul, Rat.mkRat_eq_div]
  push_cast
  rw [div_eq_iff (mul_ne_zero ha hb)]
  linear_combination (-(b * (b.den : ℚ))) * h1 + (-(a.num : ℚ)) * h2

theorem ratNeg_eq (a : ℚ) : ratNeg a = -a := by
  have ha : ((a.den : ℚ)) ≠ 0 := by exact_mod_cast a.den_nz
  have h1 := ratMulDen a ha
  rw [ratNeg, Rat.mkRat_eq_div]
  push_cast
  rw [div_eq_iff ha]
  linear_combination h1

mutual
theorem JSVal.beq_iff : ∀ (a b : JSVal), JSVal.beq a b = true ↔ a = b
  | .undef, b => by cases b <;> simp [JSVal.beq]
  | .jnull, b => by cases b <;> simp [JSVal.beq]
  | .bool x, b => by cases b <;> simp [JSVal.beq]
  | .num x, b => by cases b <;> simp [JSVal.beq]
  | .nan, b => by cases b <;> simp [JSVal.beq]
  | .str x, b => by cases b <;> simp [JSVal.beq]
  | .arr xs, b => by
    cases b
    case arr ys =>
      rw [show JSVal.beq (.arr xs) (.arr ys) = JSVal.beqList xs ys from rfl,
        JSVal.beqList_iff xs ys]
      simp
    all_goals simp [JSVal.beq]
  | .obj fs, b => by
    cases b
    case obj gs =>
      rw [show JSVal.beq (.obj fs) (.obj gs) = JSVal.beqFields fs gs from rfl,
        JSVal.beqFields_iff fs gs]
      simp
    all_goals simp [JSVal.beq]

theorem JSVal.beqList_iff : ∀ (xs ys : List JSVal), JSVal.beqList xs ys = true ↔ xs = ys
  | [], [] => by simp [JSVal.beqList]
  | [], _ :: _ => by simp [JSVal.beqList]
  | _ :: _, [] => by simp [JSVal.beqList]
  | x :: xs, y :: ys => by
    rw [show JSVal.beqList (x :: xs) (y :: ys) = (JSVal.beq x y && JSVal.beqList xs ys)
      from rfl, Bool.and_eq_true, JSVal.beq_iff x y, JSVal.beqList_iff xs ys]
    simp

theorem JSVal.beqFields_iff :
    ∀ (fs gs : List (String × JSVal)), JSVal.beqFields fs gs = true ↔ fs = gs
  | [], [] => by simp [JSVal.beqFields]
  | [], _ :: _ => by simp [JSVal.beqFields]
  | _ :: _, [] => by simp [JSVal.beqFields]
  | (k, v) :: fs, (k2, v2) :: gs => by
    rw [show JSVal.beqFields ((k, v) :: fs) ((k2, v2) :: gs) =
      ((k == k2) && JSVal.beq v v2 && JSVal.beqFields fs gs) from rfl,
      Bool.and_eq_true, Bool.and_eq_true, JSVal.beq_iff v v2, JSVal.beqFields_iff fs gs]
    simp [beq_iff_eq, and_assoc]
end

theorem JSVal.beq_refl (a : JSVal) : JSVal.beq a a = true := (JSVal.beq_iff a a).mpr rfl

theorem orZero_eq_some (x : Option (Option ℚ)) : orZero x = some ((orZero x).getD 0) := by
  rcases x with _ | (_ | q)
  · rfl
  · rfl
  · simp only [orZero]
    split
    · rfl
    · rfl

theorem mapGet_set_self (m : JSMap) (k : JSVal) (v : Option ℚ) :
    mapGet (mapSet m k v) k = some v := by
  induction m with
  | nil => simp [mapSet, mapGet, List.find?, JSVal.beq_refl]
  | cons e rest ih =>
    by_cases h : JSVal.beq e.1 k = true
    · simp [mapSet, h, mapGet, List.find?]
    · have h' : JSVal.beq e.1 k = false := by
        cases hb : JSVal.beq e.1 k
        · rfl
        · exact absurd hb h
      simp only [mapSet, h', Bool.false_eq_true, if_false, mapGet, List.find?_cons, h']
      exact ih

theorem mapGet_set_other (m : JSMap) (k v k2) (_hne : JSVal.beq k2 k = false)
    (hne2 : JSVal.beq k k2 = false) :
    mapGet (mapSet m k v) k2 = mapGet m k2 := by
  induction m with
  | nil => simp [mapSet, mapGet, List.find?, hne2]
  | cons e rest ih =>
    by_cases h : JSVal.beq e.1 k = true
    · have hek : e.1 = k := (JSVal.beq_iff e.1 k).mp h
      have he2 : JSVal.beq e.1 k2 = false := hek ▸ hne2
      simp [mapSet, h, mapGet, List.find?_cons, he2]
    · have h' : JSVal.beq e.1 k = false := by
        cases hb : JSVal.beq e.1 k
        · rfl
        · exact absurd hb h
      simp only [mapSet, h', Bool.false_eq_true, if_false]
      by_cases h2 : JSVal.beq e.1 k2 = true
      · simp [mapGet, List.find?_cons, h2]
      · have h2' : JSVal.beq e.1 k2 = false := by
          cases hb : JSVal.beq e.1 k2
          · rfl
          · exact absurd hb h2
        simp only [mapGet, List.find?_cons, h2'] at ih ⊢
        exact ih

theorem mapAt_set_step (m : JSMap) (k p : JSVal) (a : ℚ) :
    mapAt (mapSet m k (jsAdd (orZero (mapGet m k)) (some a))) p =
      if JSVal.beq p k = true then mapAt m k + a else mapAt m p := by
  have hstored : jsAdd (orZero (mapGet m k)) (some a) = some (mapAt m k + a) := by
    rw [orZero_eq_some (mapGet m k)]
    simp [jsAdd, ratAdd_eq, mapAt]
  rw [hstored]
  by_cases h : JSVal.beq p k = true
  · have hpk : p = k := (JSVal.beq_iff p k).mp h
    subst hpk
    rw [if_pos h]
    unfold mapAt
    rw [mapGet_set_self]
    show (orZero (some (some (mapAt m p + a)))).getD 0 = mapAt m p + a
    simp only [orZero]
    split
    · rename_i hz
      simp [hz]
    · simp
  · have h' : JSVal.beq p k = false := by
      cases hb : JSVal.beq p k
      · rfl
      · exact absurd hb h
    have h'' : JSVal.beq k p = false := by
      cases hb : JSVal.beq k p
      · rfl
      · exfalso
        have hk : k = p := (JSVal.beq_iff k p).mp hb
        rw [hk, JSVal.beq_refl] at h'
        exact Bool.noConfusion h'
    rw [if_neg h]
    unfold mapAt
    rw [mapGet_set_other m k _ p h' h'']

theorem slotsFold_mapAt (slots : List JSVal) (m : JSMap) (a : ℚ) (p : JSVal) :
    mapAt (slots.foldl
        (fun acc phase => mapSet acc phase (jsAdd (orZero (mapGet acc phase)) (some a))) m) p =
      mapAt m p + a * ((slots.countP fun s => JSVal.beq s p : Nat) : ℚ) := by
  induction slots generalizing m with
  | nil => simp
  | cons s rest ih =>
    simp only [List.foldl_cons, List.countP_cons]
    rw [ih]
    by_cases h : JSVal.beq s p = true
    · have hsp : s = p := (JSVal.beq_iff s p).mp h
      subst hsp
      rw [mapAt_set_step, if_pos (JSVal.beq_refl s)]
      simp only [h, if_pos]
      push_cast
      ring
    · have h' : JSVal.beq s p = false := by
        cases hb : JSVal.beq s p
        · rfl
        · exact absurd hb h
      have hps : JSVal.beq p s = false := by
        cases hb : JSVal.beq p s
        · rfl
        · exfalso
          have hk : p = s := (JSVal.beq_iff p s).mp hb
          rw [hk, JSVal.beq_refl] at h'
          exact Bool.noConfusion h'
      rw [mapAt_set_step, if_neg (by simp [hps])]
      simp [h']

theorem phaseSlotsGo_spec (workers : List Row) (m : JSMap) (p : JSVal)
    (h : ∀ w ∈ workers, (∃ xs, asArr (parseNumberArray (getF w "AvailableSlots")) = some xs) ∧
      ∃ q, jsToNumber (getF w "MaxLoadPerPhase") = some q) :
    ∃ M, phaseSlotsGo m workers = some M ∧
      mapAt M p = mapAt m p + (workers.map fun w =>
        ((jsToNumber (getF w "MaxLoadPerPhase")).getD 0) *
          (((((asArr (parseNumberArray (getF w "AvailableSlots"))).getD []).countP
            fun s => JSVal.beq s p) : Nat) : ℚ)).sum := by
  induction workers generalizing m with
  | nil => exact ⟨m, rfl, by simp⟩
  | cons w rest ih =>
    obtain ⟨⟨xs, hxs⟩, ⟨q, hq⟩⟩ := h w (by simp)
    obtain ⟨M, hM, hval⟩ := ih
      (m := xs.foldl
        (fun acc phase => mapSet acc phase (jsAdd (orZero (mapGet acc phase)) (some q))) m)
      (fun w hw => h w (by simp [hw]))
    refine ⟨M, ?_, ?_⟩
    · simp only [phaseSlotsGo, hxs, hq]
      exact hM
    · rw [hval, slotsFold_mapAt]
      simp only [List.map_cons, List.sum_cons, hxs, hq]
      simp only [Option.getD_some]
      ring

theorem phaseReqGo_spec (tasks : List Row) (m : JSMap) (p : JSVal)
    (h : ∀ t ∈ tasks, (∃ xs, asArr (parseNumberArray (getF t "PreferredPhases")) = some xs) ∧
      (∃ q, jsToNumber (getF t "Duration") = some q) ∧
      ∃ q, jsToNumber (getF t "MaxConcurrent") = some q) :
    ∃ M, phaseReqGo m tasks = some M ∧
      mapAt M p = mapAt m p + (tasks.map fun t =>
        ((jsToNumber (getF t "Duration")).getD 0) *
          ((jsToNumber (getF t "MaxConcurrent")).getD 0) *
          (((((asArr (parseNumberArray (getF t "PreferredPhases"))).getD []).countP
            fun s => JSVal.beq s p) : Nat) : ℚ)).sum := by
  induction tasks generalizing m with
  | nil => exact ⟨m, rfl, by simp⟩
  | cons t rest ih =>
    obtain ⟨⟨xs, hxs⟩, ⟨d, hd⟩, ⟨c, hc⟩⟩ := h t (by simp)
    have hmul : jsMul (jsToNumber (getF t "Duration")) (jsToNumber (getF t "MaxConcurrent")) =
        some (d * c) := by
      rw [hd, hc]
      simp [jsMul, ratMul_eq]
    obtain ⟨M, hM, hval⟩ := ih
      (m := xs.foldl
        (fun acc phase => mapSet acc phase (jsAdd (orZero (mapGet acc phase)) (some (d * c)))) m)
      (fun t ht => h t (by simp [ht]))
    refine ⟨M, ?_, ?_⟩
    · simp only [phaseReqGo, hxs, hmul]
      exact hM
    · rw [hval, slotsFold_mapAt]
      simp only [List.map_cons, List.sum_cons, hxs, hd, hc]
      simp only [Option.getD_some]
      ring

theorem mapSet_keys_mem (m : JSMap) (k : JSVal) (v : Option ℚ) (x : JSVal)
    (hx : x ∈ (mapSet m k v).map Prod.fst) : x ∈ m.map Prod.fst ∨ x = k := by
  induction m with
  | nil =>
    simp [mapSet] at hx
    exact Or.inr hx
  | cons e rest ih =>
    by_cases hb : JSVal.beq e.1 k = true
    · rw [show mapSet (e :: rest) k v = (e.1, v) :: rest from by simp [mapSet, hb]] at hx
      simp only [List.map_cons, List.mem_cons] at hx
      rcases hx with hx | hx
      · exact Or.inl (by simp [hx])
      · exact Or.inl (by simp [hx])
    · have hb' : JSVal.beq e.1 k = false := by
        cases h2 : JSVal.beq e.1 k
        · rfl
        · exact absurd h2 hb
      rw [show mapSet (e :: rest) k v = e :: mapSet rest k v from by simp [mapSet, hb']] at hx
      simp only [List.map_cons, List.mem_cons] at hx
      rcases hx with hx | hx
      · exact Or.inl (by simp [hx])
      · rcases ih hx with h1 | h1
        · exact Or.inl (by simp [h1])
        · exact Or.inr h1

theorem mapSet_keys_nodup (m : JSMap) (k : JSVal) (v : Option ℚ)
    (h : (m.map Prod.fst).Nodup) : ((mapSet m k v).map Prod.fst).Nodup := by
  induction m with
  | nil => simp [mapSet]
  | cons e rest ih =>
    simp only [List.map_cons, List.nodup_cons] at h
    by_cases hb : JSVal.beq e.1 k = true
    · rw [show mapSet (e :: rest) k v = (e.1, v) :: rest from by simp [mapSet, hb]]
      simp only [List.map_cons, List.nodup_cons]
      exact h
    · have hb' : JSVal.beq e.1 k = false := by
        cases h2 : JSVal.beq e.1 k
        · rfl
        · exact absurd h2 hb
      have hek : e.1 ≠ k := by
        intro hcontra
        rw [hcontra, JSVal.beq_refl] at hb'
        exact Bool.noConfusion hb'
      rw [show mapSet (e :: rest) k v = e :: mapSet rest k v from by simp [mapSet, hb']]
      simp only [List.map_cons, List.nodup_cons]
      refine ⟨?_, ih h.2⟩
      intro hcontra
      rcases mapSet_keys_mem rest k v e.1 hcontra with h1 | h1
      · exact h.1 h1
      · exact hek h1

theorem foldl_mapSet_nodup (slots : List JSVal) (g : JSMap → JSVal → Option ℚ) (m : JSMap)
    (h : (m.map Prod.fst).Nodup) :
    (((slots.foldl (fun acc phase => mapSet acc phase (g acc phase)) m)).map Prod.fst).Nodup := by
  induction slots generalizing m with
  | nil => exact h
  | cons s rest ih =>
    simp only [List.foldl_cons]
    exact ih _ (mapSet_keys_nodup _ _ _ h)

theorem phaseReqGo_nodup :
    ∀ (tasks : List Row) (m M : JSMap), phaseReqGo m tasks = some M →
      (m.map Prod.fst).Nodup → (M.map Prod.fst).Nodup := by
  intro tasks
  induction tasks with
  | nil =>
    intro m M hM h
    simp only [phaseReqGo] at hM
    exact (Option.some.inj hM) ▸ h
  | cons t rest ih =>
    intro m M hM h
    simp only [phaseReqGo] at hM
    rcases hA : asArr (parseNumberArray (getF t "PreferredPhases")) with _ | xs
    · rw [hA] at hM
      exact Option.noConfusion hM
    · rw [hA] at hM
      exact ih _ M hM (foldl_mapSet_nodup xs _ _ h)

theorem saturationErrorsOf_eq (S R : JSMap) :
    saturationErrorsOf S R =
      (R.filter fun en => jsGtB en.2 (orZero (mapGet S en.1))).map fun en =>
        { type := "error",
          message := "Phase " ++ jsToString en.1 ++ " requires " ++ jsToString (numOrNaN en.2) ++
            " slots but only " ++ jsToString (numOrNaN (orZero (mapGet S en.1))) ++
            " are available",
          rowIndex := -1, column := "PreferredPhases", sheetName := some "Tasks",
          value := some (.str ("Phase " ++ jsToString en.1)) } := by
  induction R with
  | nil => rfl
  | cons en rest ih =>
    rw [show saturationErrorsOf S (en :: rest) =
        (if jsGtB en.2 (orZero (mapGet S en.1)) = true then
          [{ type := "error",
             message := "Phase " ++ jsToString en.1 ++ " requires " ++
               jsToString (numOrNaN en.2) ++ " slots but only " ++
               jsToString (numOrNaN (orZero (mapGet S en.1))) ++ " are available",
             rowIndex := -1, column := "PreferredPhases", sheetName := some "Tasks",
             value := some (.str ("Phase " ++ jsToString en.1)) }]
        else []) ++ saturationErrorsOf S rest from rfl, ih, List.filter_cons]
    by_cases h : jsGtB en.2 (orZero (mapGet S en.1)) = true
    · simp [h]
    · have h' : jsGtB en.2 (orZero (mapGet S en.1)) = false := by
        cases h2 : jsGtB en.2 (orZero (mapGet S en.1))
        · rfl
        · exact absurd h2 h
      simp [h']

/-- C5: phase saturation.  Per-phase supply is the sum over workers of
`MaxLoadPerPhase` for each occurrence of the phase in that worker's parsed
`AvailableSlots` (the worker's full capacity counted in every phase it lists);
per-phase demand is the sum over tasks of `Duration × MaxConcurrent` for each
occurrence of the phase in `PreferredPhases`; the emitted errors are exactly
one sheet-level error (rowIndex `-1`) per demand-map phase whose demand
strictly exceeds its supply (the demand-map keys are pairwise distinct).  In
particular one worker with slots `[1,2]` and load 2 plus one task with phases
`[1]`, duration 3, concurrency 1 yields exactly the phase-1 error. -/
theorem C5_phase_saturation :
    (∀ (tasks workers : List Row),
      (∀ w ∈ workers, (∃ xs, asArr (parseNumberArray (getF w "AvailableSlots")) = some xs) ∧
        ∃ q, jsToNumber (getF w "MaxLoadPerPhase") = some q) →
      (∀ t ∈ tasks, (∃ xs, asArr (parseNumberArray (getF t "PreferredPhases")) = some xs) ∧
        (∃ q, jsToNumber (getF t "Duration") = some q) ∧
        ∃ q, jsToNumber (getF t "MaxConcurrent") = some q) →
      ∃ S R, phaseSlotsGo [] workers = some S ∧ phaseReqGo [] tasks = some R ∧
        validatePhaseSlotSaturation tasks workers = some (saturationErrorsOf S R) ∧
        (R.map Prod.fst).Nodup ∧
        saturationErrorsOf S R =
          (R.filter fun en => jsGtB en.2 (orZero (mapGet S en.1))).map (fun en =>
            { type := "error",
              message := "Phase " ++ jsToString en.1 ++ " requires " ++
                jsToString (numOrNaN en.2) ++ " slots but only " ++
                jsToString (numOrNaN (orZero (mapGet S en.1))) ++ " are available",
              rowIndex := -1, column := "PreferredPhases", sheetName := some "Tasks",
              value := some (.str ("Phase " ++ jsToString en.1)) }) ∧
        (∀ p : JSVal, mapAt S p = (workers.map fun w =>
          ((jsToNumber (getF w "MaxLoadPerPhase")).getD 0) *
            (((((asArr (parseNumberArray (getF w "AvailableSlots"))).getD []).countP
              fun s => JSVal.beq s p) : Nat) : ℚ)).sum) ∧
        (∀ p : JSVal, mapAt R p = (tasks.map fun t =>
          ((jsToNumber (getF t "Duration")).getD 0) *
            ((jsToNumber (getF t "MaxConcurrent")).getD 0) *
            (((((asArr (parseNumberArray (getF t "PreferredPhases"))).getD []).countP
              fun s => JSVal.beq s p) : Nat) : ℚ)).sum)) ∧
    validatePhaseSlotSaturation
        [[("TaskID", .str "T1"), ("PreferredPhases", .arr [.num 1]), ("Duration", .num 3),
          ("MaxConcurrent", .num 1)]]
        [[("WorkerID", .str "W1"), ("AvailableSlots", .arr [.num 1, .num 2]),
          ("MaxLoadPerPhase", .num 2)]] =
      some [{ type := "error",
              message := "Phase 1 requires 3 slots but only 2 are available",
              rowIndex := -1, column := "PreferredPhases", sheetName := some "Tasks",
              value := some (.str "Phase 1") }] := by
  refine ⟨?_, rfl⟩
  intro tasks workers hw ht
  obtain ⟨S, hS, _⟩ := phaseSlotsGo_spec workers [] JSVal.undef hw
  obtain ⟨R, hR, _⟩ := phaseReqGo_spec tasks [] JSVal.undef ht
  refine ⟨S, R, hS, hR, ?_, ?_, saturationErrorsOf_eq S R, ?_, ?_⟩
  · simp only [validatePhaseSlotSaturation, hS, hR]
  · exact phaseReqGo_nodup tasks [] R hR (by simp)
  · intro p
    obtain ⟨S', hS', hval⟩ := phaseSlotsGo_spec workers [] p hw
    rw [hS] at hS'
    cases Option.some.inj hS'
    rw [show mapAt ([] : JSMap) p = 0 from rfl, zero_add] at hval
    exact hval
  · intro p
    obtain ⟨R', hR', hval⟩ := phaseReqGo_spec tasks [] p ht
    rw [hR] at hR'
    cases Option.some.inj hR'
    rw [show mapAt ([] : JSMap) p = 0 from rfl, zero_add] at hval
    exact hval

/-- C5 witness: the saturation characterization applied to the one-worker,
one-task example from the claim. -/
theorem C5_phase_saturation_witness :
    ∃ S R, phaseSlotsGo []
        [[("WorkerID", JSVal.str "W1"), ("AvailableSlots", JSVal.arr [.num 1, .num 2]),
          ("MaxLoadPerPhase", JSVal.num 2)]] = some S ∧
      phaseReqGo []
        [[("TaskID", JSVal.str "T1"), ("PreferredPhases", JSVal.arr [.num 1]),
          ("Duration", JSVal.num 3), ("MaxConcurrent", JSVal.num 1)]] = some R ∧
      validatePhaseSlotSaturation
        [[("TaskID", JSVal.str "T1"), ("PreferredPhases", JSVal.arr [.num 1]),
          ("Duration", JSVal.num 3), ("MaxConcurrent", JSVal.num 1)]]
        [[("WorkerID", JSVal.str "W1"), ("AvailableSlots", JSVal.arr [.num 1, .num 2]),
          ("MaxLoadPerPhase", JSVal.num 2)]] = some (saturationErrorsOf S R) ∧
      (R.map Prod.fst).Nodup ∧
      saturationErrorsOf S R =
        (R.filter fun en => jsGtB en.2 (orZero (mapGet S en.1))).map (fun en =>
          { type := "error",
            message := "Phase " ++ jsToString en.1 ++ " requires " ++
              jsToString (numOrNaN en.2) ++ " slots but only " ++
              jsToString (numOrNaN (orZero (mapGet S en.1))) ++ " are available",
            rowIndex := -1, column := "PreferredPhases", sheetName := some "Tasks",
            value := some (.str ("Phase " ++ jsToString en.1)) }) ∧
      (∀ p : JSVal, mapAt S p =
        ([[("WorkerID", JSVal.str "W1"), ("AvailableSlots", JSVal.arr [.num 1, .num 2]),
          ("MaxLoadPerPhase", JSVal.num 2)]].map fun w =>
          ((jsToNumber (getF w "MaxLoadPerPhase")).getD 0) *
            (((((asArr (parseNumberArray (getF w "AvailableSlots"))).getD []).countP
              fun s => JSVal.beq s p) : Nat) : ℚ)).sum) ∧
      (∀ p : JSVal, mapAt R p =
        ([[("TaskID", JSVal.str "T1"), ("PreferredPhases", JSVal.arr [.num 1]),
          ("Duration", JSVal.num 3), ("MaxConcurrent", JSVal.num 1)]].map fun t =>
          ((jsToNumber (getF t "Duration")).getD 0) *
            ((jsToNumber (getF t "MaxConcurrent")).getD 0) *
            (((((asArr (parseNumberArray (getF t "PreferredPhases"))).getD []).countP
              fun s => JSVal.beq s p) : Nat) : ℚ)).sum) :=
  C5_phase_saturation.1 _ _
    (by
      intro w hw
      rw [List.mem_singleton] at hw
      subst hw
      exact ⟨⟨[.num 1, .num 2], rfl⟩, 2, rfl⟩)
    (by
      intro t htt
      rw [List.mem_singleton] at htt
      subst htt
      exact ⟨⟨[.num 1], rfl⟩, ⟨3, rfl⟩, 1, rfl⟩)

theorem getF_mem_of_ne_undef {r : Row} {k : String} (h : getF r k ≠ .undef) :
    k ∈ r.map Prod.fst := by
  induction r with
  | nil => exact absurd rfl h
  | cons e rest ih =>
    by_cases hk : e.1 = k
    · simp [hk]
    · have hk' : (e.1 == k) = false := by
        rw [beq_eq_false_iff_ne]
        exact hk
      simp only [getF, List.find?_cons, hk'] at h
      simp only [List.map_cons, List.mem_cons]
      exact Or.inr (ih h)

theorem setF_getF_self (r : Row) (k : String) (v : JSVal) : getF (setF r k v) k = v := by
  induction r with
  | nil => simp [setF, getF, List.find?]
  | cons e rest ih =>
    by_cases hk : (e.1 == k) = true
    · simp [setF, hk, getF, List.find?]
    · have hk' : (e.1 == k) = false := by
        cases h2 : e.1 == k
        · rfl
        · exact absurd h2 hk
      simp only [setF, hk', Bool.false_eq_true, if_false]
      simp only [getF, List.find?_cons, hk'] at ih ⊢
      exact ih

theorem setF_getF_other (r : Row) (k v k2) (hne : k2 ≠ k) :
    getF (setF r k v) k2 = getF r k2 := by
  induction r with
  | nil =>
    have : (k == k2) = false := by
      rw [beq_eq_false_iff_ne]
      exact fun h => hne h.symm
    simp [setF, getF, List.find?, this]
  | cons e rest ih =>
    by_cases hk : (e.1 == k) = true
    · have he : e.1 = k := by rwa [beq_iff_eq] at hk
      have h2 : (e.1 == k2) = false := by
        rw [beq_eq_false_iff_ne]
        rw [he]
        exact fun h => hne h.symm
      simp [setF, hk, getF, List.find?_cons, h2]
    · have hk' : (e.1 == k) = false := by
        cases h2 : e.1 == k
        · rfl
        · exact absurd h2 hk
      simp only [setF, hk', Bool.false_eq_true, if_false]
      by_cases h2 : (e.1 == k2) = true
      · simp [getF, List.find?_cons, h2]
      · have h2' : (e.1 == k2) = false := by
          cases h3 : e.1 == k2
          · rfl
          · exact absurd h3 h2
        simp only [getF, List.find?_cons, h2'] at ih ⊢
        exact ih

theorem setF_keys_of_mem (r : Row) (k v) (h : k ∈ r.map Prod.fst) :
    (setF r k v).map Prod.fst = r.map Prod.fst := by
  induction r with
  | nil => simp at h
  | cons e rest ih =>
    by_cases hk : (e.1 == k) = true
    · simp [setF, hk]
    · have hk' : (e.1 == k) = false := by
        cases h2 : e.1 == k
        · rfl
        · exact absurd h2 hk
      have hne : e.1 ≠ k := by rwa [beq_eq_false_iff_ne] at hk'
      simp only [List.map_cons, List.mem_cons] at h
      rcases h with h | h
      · exact absurd h.symm hne
      · simp only [setF, hk', Bool.false_eq_true, if_false, List.map_cons, ih h]

theorem agreesExcept_refl (k : String) (r : Row) : agreesExcept k r r :=
  ⟨rfl, fun _ _ => rfl⟩

theorem attrRowStep_agrees (n : String) (i : Nat) (r : Row) :
    agreesExcept "AttributesJSON" r (attrRowStep n i r).2 := by
  simp only [attrRowStep]
  repeat' split
  all_goals
    first
      | exact agreesExcept_refl _ _
      | exact ⟨setF_keys_of_mem _ _ _ (getF_mem_of_ne_undef (by simp_all)),
          fun k2 hk2 => setF_getF_other r _ _ k2 hk2⟩

theorem hexVal_hexDigitChar : ∀ x : Nat, x < 16 → hexVal (hexDigitChar x) = some x := by
  intro x hx
  interval_cases x <;> rfl

theorem jsonStrAux_escaped :
    ∀ (cs : List Char) (rest : List Char),
      ∃ content, jsonStrAux (cs.flatMap escChar ++ '"' :: rest) = some (content, rest) := by
  intro cs
  induction cs with
  | nil =>
    intro rest
    exact ⟨[], rfl⟩
  | cons c cs ih =>
    intro rest
    simp only [List.flatMap_cons, List.append_assoc]
    by_cases h1 : c = '"'
    · subst h1
      obtain ⟨content, hc⟩ := ih rest
      exact ⟨'"' :: content, by simp [escChar, jsonStrAux, jsonEscDecode, hc]⟩
    · by_cases h2 : c = '\\'
      · subst h2
        obtain ⟨content, hc⟩ := ih rest
        exact ⟨'\\' :: content, by simp [escChar, jsonStrAux, jsonEscDecode, hc]⟩
      · by_cases h3 : c = '\x08'
        · subst h3
          obtain ⟨content, hc⟩ := ih rest
          exact ⟨'\x08' :: content, by simp [escChar, jsonStrAux, jsonEscDecode, hc]⟩
        · by_cases h4 : c = '\x0c'
          · subst h4
            obtain ⟨content, hc⟩ := ih rest
            exact ⟨'\x0c' :: content, by simp [escChar, jsonStrAux, jsonEscDecode, hc]⟩
          · by_cases h5 : c = '\n'
            · subst h5
              obtain ⟨content, hc⟩ := ih rest
              exact ⟨'\n' :: content, by simp [escChar, jsonStrAux, jsonEscDecode, hc]⟩
            · by_cases h6 : c = '\r'
              · subst h6
                obtain ⟨content, hc⟩ := ih rest
                exact ⟨'\r' :: content, by simp [escChar, jsonStrAux, jsonEscDecode, hc]⟩
              · by_cases h7 : c = '\t'
                · subst h7
                  obtain ⟨content, hc⟩ := ih rest
                  exact ⟨'\t' :: content, by simp [escChar, jsonStrAux, jsonEscDecode, hc]⟩
                · by_cases h8 : c.toNat < 0x20
                  · rw [show escChar c = ['\\', 'u', '0', '0', hexDigitChar (c.toNat / 16),
                        hexDigitChar (c.toNat % 16)] from by
                      simp only [escChar, if_neg h1, if_neg h2, if_neg h3, if_neg h4,
                        if_neg h5, if_neg h6, if_neg h7, if_pos h8]]
                    obtain ⟨content, hc⟩ := ih rest
                    have hv2 : hexVal (hexDigitChar (c.toNat / 16)) = some (c.toNat / 16) :=
                      hexVal_hexDigitChar _ (by omega)
                    have hv3 : hexVal (hexDigitChar (c.toNat % 16)) = some (c.toNat % 16) :=
                      hexVal_hexDigitChar _ (by omega)
                    refine ⟨Char.ofNat (((0 * 16 + 0) * 16 + c.toNat / 16) * 16 +
                      c.toNat % 16) :: content, ?_⟩
                    have hv0 : hexVal '0' = some 0 := rfl
                    simp only [List.cons_append, jsonStrAux, hv0, hv2, hv3]
                    rw [show ([].append (cs.flatMap escChar ++ '"' :: rest) : List Char) =
                      cs.flatMap escChar ++ '"' :: rest from rfl, hc]
                    rfl
                  · rw [show escChar c = [c] from by
                      simp only [escChar, if_neg h1, if_neg h2, if_neg h3, if_neg h4,
                        if_neg h5, if_neg h6, if_neg h7, if_neg h8]]
                    obtain ⟨content, hc⟩ := ih rest
                    refine ⟨c :: content, ?_⟩
                    simp only [List.cons_append, List.nil_append]
                    rw [show jsonStrAux (c :: (cs.flatMap escChar ++ '"' :: rest)) =
                        if c.toNat < 0x20 then none
                        else (jsonStrAux (cs.flatMap escChar ++ '"' :: rest)).map
                          fun p => (c :: p.1, p.2) from ?_]
                    · rw [if_neg h8, hc]
                      rfl
                    · rw [jsonStrAux.eq_def]
                      split
                      all_goals simp_all

/-- Step lemma: an object opener followed directly by a string key hands over
to the member parser. -/
theorem jsonVal_obj_quote (fuel : Nat) (cs : List Char) :
    jsonVal (fuel + 1) ('\x7b' :: '"' :: cs) = jsonMembers fuel ('"' :: cs) [] := rfl

/-- Step lemma: the member parser on the literal key `"message"` followed by a
colon and a string value. -/
theorem jsonMembers_message (fuel : Nat) (cs : List Char) (acc : List (String × JSVal)) :
    jsonMembers (fuel + 2)
      ('"' :: 'm' :: 'e' :: 's' :: 's' :: 'a' :: 'g' :: 'e' :: '"' :: ':' :: '"' :: cs) acc =
    match (jsonStrAux cs).map (fun p => (JSVal.str ⟨p.1⟩, p.2)) with
    | none => none
    | some (v, r3) =>
      match jsonWs r3 with
      | ',' :: r4 => jsonMembers (fuel + 1) (jsonWs r4) (acc ++ [("message", v)])
      | '\x7d' :: r4 => some (JSVal.obj (acc ++ [("message", v)]), r4)
      | _ => none := rfl

theorem jsonParse_stringifyMessage (t : String) :
    ∃ v, jsonParse (stringifyMessage t) = some v := by
  obtain ⟨content, hscan⟩ := jsonStrAux_escaped t.data ['\x7d']
  have hdata : (stringifyMessage t).data =
      '\x7b' :: '"' :: 'm' :: 'e' :: 's' :: 's' :: 'a' :: 'g' :: 'e' :: '"' :: ':' :: '"' ::
        (t.data.flatMap escChar ++ '"' :: '\x7d' :: []) := by
    simp [stringifyMessage, jsonQuote, String.data_append]
  have hlen : (stringifyMessage t).length = (t.data.flatMap escChar).length + 14 := by
    rw [String.length, hdata]
    simp
  have hfuel : (stringifyMessage t).length + 2 =
      ((t.data.flatMap escChar).length + 13) + 2 + 1 := by
    omega
  refine ⟨.obj [("message", .str ⟨content⟩)], ?_⟩
  rw [jsonParse, hfuel, hdata]
  rw [show jsonWs ('\x7b' :: '"' :: 'm' :: 'e' :: 's' :: 's' :: 'a' :: 'g' :: 'e' :: '"' ::
    ':' :: '"' :: (t.data.flatMap escChar ++ '"' :: '\x7d' :: [])) =
    '\x7b' :: '"' :: 'm' :: 'e' :: 's' :: 's' :: 'a' :: 'g' :: 'e' :: '"' ::
    ':' :: '"' :: (t.data.flatMap escChar ++ '"' :: '\x7d' :: []) from rfl]
  rw [jsonVal_obj_quote, jsonMembers_message, hscan]
  simp [jsonWs]

theorem stringifyMessage_ne_empty (t : String) : stringifyMessage t ≠ "" := by
  intro h
  have hd : (stringifyMessage t).data = [] := by rw [h]
  simp [stringifyMessage, jsonQuote, String.data_append] at hd

theorem attrRowStep_cases (n : String) (i : Nat) (r : Row) :
    (attrRowStep n i r).2 = r ∨
    ∃ s : String, getF r "AttributesJSON" = .str s ∧ s ≠ "" ∧ jsonParse s = none ∧
      attrRowStep n i r = ([], setF r "AttributesJSON" (.str (stringifyMessage (jsTrim s)))) := by
  rcases hA : getF r "AttributesJSON" with _ | _ | b | q | _ | s | xs | fs
  case str =>
    by_cases hs : s = ""
    · left; simp [attrRowStep, hA, hs]
    · rcases hp : jsonParse s with _ | v
      · by_cases hrep : ¬ startsWithChars (jsTrim s).data ['\x7b'] ∧
            ¬ startsWithChars (jsTrim s).data ['['] ∧ ¬ (jsTrim s).data.contains ':'
        · right
          refine ⟨s, rfl, hs, hp, ?_⟩
          simp only [attrRowStep, hA, hp]
          rw [if_pos hs, if_pos hrep]
        · left
          simp only [attrRowStep, hA, hp]
          rw [if_pos hs, if_neg hrep]
      · left; simp [attrRowStep, hA, hs, hp]
  all_goals left; simp [attrRowStep, hA]

theorem attrRowStep_idem (n : String) (i : Nat) (r : Row) :
    attrRowStep n i (attrRowStep n i r).2 = attrRowStep n i r := by
  rcases attrRowStep_cases n i r with h | ⟨s, hA, hs, hp, hstep⟩
  · rw [h]
  · rw [hstep]
    obtain ⟨v, hv⟩ := jsonParse_stringifyMessage (jsTrim s)
    have hg : getF (setF r "AttributesJSON" (.str (stringifyMessage (jsTrim s))))
        "AttributesJSON" = .str (stringifyMessage (jsTrim s)) := setF_getF_self _ _ _
    simp only [attrRowStep, hg, hv]
    rw [if_pos (stringifyMessage_ne_empty (jsTrim s))]

theorem attrGo_idem (n : String) : ∀ (i : Nat) (rows : List Row),
    attrGo n i (attrGo n i rows).2 = attrGo n i rows := by
  intro i rows
  induction rows generalizing i with
  | nil => rfl
  | cons r rs ih =>
    have e1 : attrGo n i (r :: rs) =
        ((attrRowStep n i r).1 ++ (attrGo n (i + 1) rs).1,
         (attrRowStep n i r).2 :: (attrGo n (i + 1) rs).2) := rfl
    rw [e1]
    have e2 : attrGo n i ((attrRowStep n i r).2 :: (attrGo n (i + 1) rs).2) =
        ((attrRowStep n i (attrRowStep n i r).2).1 ++
           (attrGo n (i + 1) (attrGo n (i + 1) rs).2).1,
         (attrRowStep n i (attrRowStep n i r).2).2 ::
           (attrGo n (i + 1) (attrGo n (i + 1) rs).2).2) := rfl
    rw [e2, attrRowStep_idem, ih]

theorem attrRowStep_repairedFrom (n : String) (i : Nat) (r : Row) :
    repairedFrom r (attrRowStep n i r).2 := by
  rcases attrRowStep_cases n i r with h | ⟨s, hA, hs, hp, hstep⟩
  · exact Or.inl h
  · refine Or.inr ⟨attrRowStep_agrees n i r, s, hA, hs, hp, ?_⟩
    rw [hstep]
    exact setF_getF_self _ _ _

theorem attrGo_repairedFrom (n : String) : ∀ (i : Nat) (rows : List Row),
    List.Forall₂ repairedFrom rows (attrGo n i rows).2 := by
  intro i rows
  induction rows generalizing i with
  | nil => exact List.Forall₂.nil
  | cons r rs ih =>
    exact List.Forall₂.cons (attrRowStep_repairedFrom n i r) (ih (i + 1))

theorem repairedFrom_refl (r : Row) : repairedFrom r r := Or.inl rfl

theorem forall₂_repairedFrom_refl : ∀ (l : List Row), List.Forall₂ repairedFrom l l
  | [] => List.Forall₂.nil
  | r :: rs => List.Forall₂.cons (repairedFrom_refl r) (forall₂_repairedFrom_refl rs)

theorem repairedFrom_agrees {r r2 : Row} (h : repairedFrom r r2) :
    agreesExcept "AttributesJSON" r r2 := by
  rcases h with h | ⟨ha, _⟩
  · rw [h]; exact agreesExcept_refl _ _
  · exact ha

theorem validateRequiredColumns_congr {n : String} {data data2 : List Row}
    (h : List.Forall₂ (fun r r2 => agreesExcept "AttributesJSON" r r2) data data2) :
    validateRequiredColumns n data2 = validateRequiredColumns n data := by
  cases h with
  | nil => rfl
  | cons h1 _ =>
    simp only [validateRequiredColumns]
    cases REQUIRED_COLUMNS (getBaseSheetName n) with
    | none => rfl
    | some req => simp [h1.1]

theorem dupGo_congr {n c : String} (hc : c ≠ "AttributesJSON") :
    ∀ {data data2 : List Row},
      List.Forall₂ (fun r r2 => agreesExcept "AttributesJSON" r r2) data data2 →
      ∀ (seen : List String) (i : Nat), dupGo n c seen i data2 = dupGo n c seen i data := by
  intro data data2 h
  induction h with
  | nil => intro seen i; rfl
  | cons h1 _ ih =>
    intro seen i
    have hg := h1.2 c hc
    simp only [dupGo, hg]
    rw [ih]

theorem validateDuplicateIDs_congr {n : String} {data data2 : List Row}
    (h : List.Forall₂ (fun r r2 => agreesExcept "AttributesJSON" r r2) data data2) :
    validateDuplicateIDs n data2 = validateDuplicateIDs n data := by
  simp only [validateDuplicateIDs]
  rcases hid : idColumnOf (getBaseSheetName n) with _ | c
  · rfl
  · have hc : c ≠ "AttributesJSON" := by
      simp only [idColumnOf] at hid
      split_ifs at hid <;> simp only [Option.some.injEq, reduceCtorEq] at hid <;>
        (rw [← hid]; decide)
    exact dupGo_congr hc h [] 0

theorem eachRow_congr {f : Nat → Row → List ValidationError}
    (hf : ∀ (i : Nat) (a b : Row), agreesExcept "AttributesJSON" a b → f i b = f i a) :
    ∀ {data data2 : List Row},
      List.Forall₂ (fun r r2 => agreesExcept "AttributesJSON" r r2) data data2 →
      ∀ (i : Nat), eachRow f i data2 = eachRow f i data := by
  intro data data2 h
  induction h with
  | nil => intro i; rfl
  | cons h1 _ ih =>
    intro i
    simp only [eachRow, hf i _ _ h1, ih]

theorem validatePriorityLevel_congr {n : String} {data data2 : List Row}
    (h : List.Forall₂ (fun r r2 => agreesExcept "AttributesJSON" r r2) data data2) :
    validatePriorityLevel data2 n = validatePriorityLevel data n := by
  simp only [validatePriorityLevel]
  split
  · rfl
  · exact eachRow_congr
      (fun i a b hab => by
        simp only [priorityRowCheck, hab.2 "PriorityLevel" (by decide)])
      h 0

theorem validateAttributesJSON_idem (n : String) (data : List Row) :
    validateAttributesJSON (validateAttributesJSON data n).2 n =
      validateAttributesJSON data n := by
  by_cases hb : getBaseSheetName n ≠ "Clients"
  · simp [validateAttributesJSON, hb]
  · simp only [validateAttributesJSON, if_neg hb]
    exact attrGo_idem n 0 data

theorem perSheet_nonclients_snd {n : String} {data : List Row} {es : List ValidationError}
    {data2 : List Row} (hC : getBaseSheetName n ≠ "Clients")
    (h : perSheet n data = some (es, data2)) : data2 = data := by
  simp only [perSheet, if_neg hC] at h
  split at h
  · split at h
    · exact absurd h (by simp)
    · simp only [Option.some.injEq, Prod.mk.injEq] at h
      exact h.2.symm
  · split at h
    · simp only [Option.some.injEq, Prod.mk.injEq] at h
      exact h.2.symm
    · simp only [Option.some.injEq, Prod.mk.injEq] at h
      exact h.2.symm

theorem perSheet_clients {n : String} (data : List Row) (hC : getBaseSheetName n = "Clients") :
    perSheet n data =
      some (validateRequiredColumns n data ++ validateDuplicateIDs n data ++
        validatePriorityLevel data n ++ (attrGo n 0 data).1, (attrGo n 0 data).2) := by
  have hv : validateAttributesJSON data n = attrGo n 0 data := by
    simp [validateAttributesJSON, hC]
  simp only [perSheet, if_pos hC, hv]

theorem perSheet_idem {n : String} {data : List Row} {es : List ValidationError}
    {data2 : List Row} (h : perSheet n data = some (es, data2)) :
    perSheet n data2 = some (es, data2) := by
  by_cases hC : getBaseSheetName n = "Clients"
  · have hagree : List.Forall₂ (fun r r2 => agreesExcept "AttributesJSON" r r2) data
        (attrGo n 0 data).2 :=
      (attrGo_repairedFrom n 0 data).imp fun _ _ h => repairedFrom_agrees h
    rw [perSheet_clients data hC] at h
    simp only [Option.some.injEq, Prod.mk.injEq] at h
    obtain ⟨hes, hd2⟩ := h
    subst hd2
    rw [perSheet_clients _ hC]
    rw [validateRequiredColumns_congr hagree, validateDuplicateIDs_congr hagree,
      validatePriorityLevel_congr hagree, attrGo_idem]
    rw [← hes]
  · have hd : data2 = data := perSheet_nonclients_snd hC h
    subst hd
    exact h

theorem sheetsGo_idem : ∀ {s : Snapshot} {es : List ValidationError} {s2 : Snapshot},
    sheetsGo s = some (es, s2) → sheetsGo s2 = some (es, s2) := by
  intro s
  induction s with
  | nil =>
    intro es s2 h
    simp only [sheetsGo, Option.some.injEq, Prod.mk.injEq] at h
    obtain ⟨h1, h2⟩ := h
    rw [← h1, ← h2]
    rfl
  | cons e rest ih =>
    obtain ⟨en, ed⟩ := e
    intro es s2 h
    rcases hp : perSheet en ed with _ | ⟨pe, pd⟩
    · rw [sheetsGo, hp] at h
      exact absurd h (by simp)
    · rcases hr : sheetsGo rest with _ | ⟨qe, qd⟩
      · rw [sheetsGo, hp, hr] at h
        exact absurd h (by simp)
      · have hval : sheetsGo ((en, ed) :: rest) = some (pe ++ qe, (en, pd) :: qd) := by
          rw [sheetsGo, hp, hr]
        rw [hval] at h
        simp only [Option.some.injEq, Prod.mk.injEq] at h
        obtain ⟨hes, hs2⟩ := h
        rw [← hs2]
        have hp2 : perSheet en pd = some (pe, pd) := perSheet_idem hp
        have hr2 : sheetsGo qd = some (qe, qd) := ih hr
        rw [sheetsGo, hp2, hr2, ← hes]

theorem crossStage_snd {se : List ValidationError} {upd : Snapshot} {res : ValidationResult}
    {s2 : Snapshot} (h : crossStage se upd = some (res, s2)) : s2 = upd := by
  simp only [crossStage] at h
  split at h
  · exact absurd h (by simp)
  · simp only [Option.some.injEq, Prod.mk.injEq] at h
    exact h.2.symm

theorem crossStage_isValid {se : List ValidationError} {upd : Snapshot}
    {res : ValidationResult} {s2 : Snapshot} (h : crossStage se upd = some (res, s2)) :
    res.isValid = (res.errors.length == 0) := by
  simp only [crossStage] at h
  split at h
  · exact absurd h (by simp)
  · simp only [Option.some.injEq, Prod.mk.injEq] at h
    obtain ⟨h1, _⟩ := h
    rw [← h1]

/-- C7: validation is idempotent: when `validateAllData` succeeds, running it
again on the returned (possibly `AttributesJSON`-repaired) snapshot yields the
identical error list in the same order, and the identical snapshot. -/
theorem C7_validateAllData_idempotent (s : Snapshot) (res : ValidationResult) (s2 : Snapshot)
    (h : validateAllData s = some (res, s2)) : validateAllData s2 = some (res, s2) := by
  rcases hg : sheetsGo s with _ | ⟨se, upd⟩
  · rw [validateAllData, hg] at h
    exact absurd h (by simp)
  · rw [validateAllData, hg] at h
    have hc : crossStage se upd = some (res, s2) := h
    have hs2 : s2 = upd := crossStage_snd hc
    subst hs2
    rw [validateAllData, sheetsGo_idem hg]
    exact hc

/-- C7 witness: on a one-client snapshot whose `AttributesJSON` gets
auto-repaired, the second run reproduces the clean result and the repaired
snapshot exactly. -/
theorem C7_validateAllData_idempotent_witness :
    validateAllData exRepairSnapFixed =
      some ({ isValid := true, errors := [] }, exRepairSnapFixed) :=
  C7_validateAllData_idempotent exRepairSnap { isValid := true, errors := [] }
    exRepairSnapFixed rfl

theorem perSheet_frame {n : String} {data : List Row} {es : List ValidationError}
    {data2 : List Row} (h : perSheet n data = some (es, data2)) :
    (getBaseSheetName n ≠ "Clients" → data2 = data) ∧
      List.Forall₂ repairedFrom data data2 := by
  by_cases hC : getBaseSheetName n = "Clients"
  · rw [perSheet_clients data hC] at h
    simp only [Option.some.injEq, Prod.mk.injEq] at h
    rw [← h.2]
    exact ⟨fun hn => absurd hC hn, attrGo_repairedFrom n 0 data⟩
  · have hd := perSheet_nonclients_snd hC h
    subst hd
    exact ⟨fun _ => rfl, forall₂_repairedFrom_refl _⟩

theorem sheetsGo_frame : ∀ {s : Snapshot} {es : List ValidationError} {s2 : Snapshot},
    sheetsGo s = some (es, s2) →
    List.Forall₂ (fun e e2 =>
      e2.1 = e.1 ∧ (getBaseSheetName e.1 ≠ "Clients" → e2.2 = e.2) ∧
        List.Forall₂ repairedFrom e.2 e2.2) s s2 := by
  intro s
  induction s with
  | nil =>
    intro es s2 h
    simp only [sheetsGo, Option.some.injEq, Prod.mk.injEq] at h
    rw [← h.2]
    exact List.Forall₂.nil
  | cons e rest ih =>
    obtain ⟨en, ed⟩ := e
    intro es s2 h
    rcases hp : perSheet en ed with _ | ⟨pe, pd⟩
    · rw [sheetsGo, hp] at h
      exact absurd h (by simp)
    · rcases hr : sheetsGo rest with _ | ⟨qe, qd⟩
      · rw [sheetsGo, hp, hr] at h
        exact absurd h (by simp)
      · rw [sheetsGo, hp, hr] at h
        simp only [Option.some.injEq, Prod.mk.injEq] at h
        rw [← h.2]
        have hpf := perSheet_frame hp
        exact List.Forall₂.cons ⟨rfl, hpf.1, hpf.2⟩ (ih hr)

/-- C8: a successful `validateAllData` run preserves the sheet names and every
row of every non-client sheet, and each client row is unchanged except that an
`AttributesJSON` value taken by the auto-repair branch is replaced in place —
the only mutation the core performs. -/
theorem C8_only_attributesJSON_repair_mutates (s : Snapshot) (res : ValidationResult)
    (s2 : Snapshot) (h : validateAllData s = some (res, s2)) :
    List.Forall₂ (fun e e2 =>
      e2.1 = e.1 ∧ (getBaseSheetName e.1 ≠ "Clients" → e2.2 = e.2) ∧
        List.Forall₂ repairedFrom e.2 e2.2) s s2 := by
  rcases hg : sheetsGo s with _ | ⟨se, upd⟩
  · rw [validateAllData, hg] at h
    exact absurd h (by simp)
  · rw [validateAllData, hg] at h
    have hc : crossStage se upd = some (res, s2) := h
    rw [crossStage_snd hc]
    exact sheetsGo_frame hg

/-- C8 witness: on the repair example, the run leaves the sheet name and all
fields intact except the repaired `AttributesJSON` of the client row. -/
theorem C8_only_attributesJSON_repair_mutates_witness :
    List.Forall₂ (fun e e2 =>
      e2.1 = e.1 ∧ (getBaseSheetName e.1 ≠ "Clients" → e2.2 = e.2) ∧
        List.Forall₂ repairedFrom e.2 e2.2) exRepairSnap exRepairSnapFixed :=
  C8_only_attributesJSON_repair_mutates exRepairSnap { isValid := true, errors := [] }
    exRepairSnapFixed rfl

theorem eachRow_nil {f : Nat → Row → List ValidationError} {data : List Row}
    (hf : ∀ (i : Nat), ∀ r ∈ data, f i r = []) : ∀ i, eachRow f i data = [] := by
  induction data with
  | nil => intro i; rfl
  | cons r rs ih =>
    intro i
    rw [eachRow, hf i r (List.mem_cons_self r rs),
      ih (fun i r hr => hf i r (List.mem_cons_of_mem _ hr)) (i + 1)]
    rfl

theorem eachRowM_nil {f : Nat → Row → Option (List ValidationError)} {data : List Row}
    (hf : ∀ (i : Nat), ∀ r ∈ data, f i r = some []) : ∀ i, eachRowM f i data = some [] := by
  induction data with
  | nil => intro i; rfl
  | cons r rs ih =>
    intro i
    rw [eachRowM, hf i r (List.mem_cons_self r rs),
      ih (fun i r hr => hf i r (List.mem_cons_of_mem _ hr)) (i + 1)]
    rfl

theorem validateRequiredColumns_nil {n : String} {data : List Row}
    (h : ∀ req, REQUIRED_COLUMNS (getBaseSheetName n) = some req →
      ∀ row ∈ data, ∀ col ∈ req, getF row col ≠ .undef) :
    validateRequiredColumns n data = [] := by
  rcases hreq : REQUIRED_COLUMNS (getBaseSheetName n) with _ | req
  · simp only [validateRequiredColumns, hreq]
  · rcases data with _ | ⟨firstRow, rest⟩
    · simp only [validateRequiredColumns, hreq]
    · simp only [validateRequiredColumns, hreq, List.map_eq_nil_iff]
      apply List.filter_eq_nil_iff.mpr
      intro col hcol
      have hmem : col ∈ firstRow.map Prod.fst :=
        getF_mem_of_ne_undef (h req hreq firstRow (List.mem_cons_self _ _) col hcol)
      simp [List.contains, List.elem_iff, hmem]

theorem dupGo_nil {n c : String} : ∀ {data : List Row} (seen : List String) (i : Nat),
    specNodup (data.map fun row => jsToString (getF row c)) = true →
    (∀ row ∈ data, seen.contains (jsToString (getF row c)) = false) →
    dupGo n c seen i data = [] := by
  intro data
  induction data with
  | nil => intro seen i _ _; rfl
  | cons r rs ih =>
    intro seen i hnd hseen
    simp only [List.map_cons, specNodup, Bool.and_eq_true, Bool.not_eq_true'] at hnd
    obtain ⟨hhead, htail⟩ := hnd
    have hrseen : seen.contains (jsToString (getF r c)) = false :=
      hseen r (List.mem_cons_self _ _)
    rw [dupGo]
    rw [if_neg (by rw [hrseen, Bool.and_false]; simp)]
    rw [List.nil_append]
    apply ih _ (i + 1) htail
    intro row hrow
    by_cases ht : (getF r c).truthy
    · rw [if_pos ht]
      simp only [List.contains_cons, Bool.or_eq_false_iff]
      constructor
      · rw [beq_eq_false_iff_ne]
        intro heq
        have : (rs.map fun row => jsToString (getF row c)).contains
            (jsToString (getF r c)) = true := by
          rw [← heq]
          exact List.elem_iff.mpr (List.mem_map_of_mem _ hrow)
        rw [hhead] at this
        exact absurd this (by simp)
      · exact hseen row (List.mem_cons_of_mem _ hrow)
    · rw [if_neg ht]
      exact hseen row (List.mem_cons_of_mem _ hrow)

theorem validateDuplicateIDs_nil {n : String} {data : List Row}
    (h : ∀ c, idColumnOf (getBaseSheetName n) = some c →
      specNodup (data.map fun row => jsToString (getF row c)) = true) :
    validateDuplicateIDs n data = [] := by
  rw [validateDuplicateIDs]
  rcases hid : idColumnOf (getBaseSheetName n) with _ | c
  · rfl
  · exact dupGo_nil [] 0 (h c hid) (fun row _ => rfl)

theorem priorityRowCheck_nil {n : String} {row : Row}
    (h : (match jsToNumber (getF row "PriorityLevel") with
          | some q => decide (1 ≤ q) && decide (q ≤ 5)
          | none => false) = true) :
    ∀ i, priorityRowCheck n i row = [] := by
  intro i
  rcases hq : jsToNumber (getF row "PriorityLevel") with _ | q
  · rw [hq] at h
    exact absurd h (by simp)
  · simp only [hq, Bool.and_eq_true, decide_eq_true_eq] at h
    have h1 : jsLtB (some q) (some 1) = false := by
      simp only [jsLtB, decide_eq_false_iff_not, not_lt]
      exact h.1
    have h2 : jsGtB (some q) (some 5) = false := by
      simp only [jsGtB, decide_eq_false_iff_not, not_lt]
      exact h.2
    simp [priorityRowCheck, hq, h1, h2]

theorem durationRowCheck_nil {n : String} {row : Row}
    (h : (match jsToNumber (getF row "Duration") with
          | some q => decide (1 ≤ q)
          | none => false) = true) :
    ∀ i, durationRowCheck n i row = [] := by
  intro i
  rcases hq : jsToNumber (getF row "Duration") with _ | q
  · rw [hq] at h
    exact absurd h (by simp)
  · simp only [hq, decide_eq_true_eq] at h
    have h1 : jsLtB (some q) (some 1) = false := by
      simp only [jsLtB, decide_eq_false_iff_not, not_lt]
      exact h
    simp [durationRowCheck, hq, h1]

theorem slotsRowCheck_nil {n : String} {row : Row}
    (h : (match asArr (parseNumberArray (getF row "AvailableSlots")) with
          | some slots => slots.all fun x => (jsToNumber x).isSome
          | none => false) = true) :
    ∀ i, slotsRowCheck n i row = some [] := by
  intro i
  rcases ha : asArr (parseNumberArray (getF row "AvailableSlots")) with _ | slots
  · rw [ha] at h
    exact absurd h (by simp)
  · simp only [ha, List.all_eq_true] at h
    have hany : (slots.any fun slot => (jsToNumber slot).isNone) = false := by
      rw [Bool.eq_false_iff]
      intro hc
      rw [List.any_eq_true] at hc
      obtain ⟨slot, hs, hn⟩ := hc
      have := h slot hs
      rcases hx : jsToNumber slot with _ | y
      · rw [hx] at this
        exact absurd this (by simp)
      · rw [hx] at hn
        exact absurd hn (by simp)
    simp [slotsRowCheck, ha, hany]

theorem attrRowStep_fst_nil {n : String} {i : Nat} {row : Row}
    (h : specAttrOK row = true) : (attrRowStep n i row).1 = [] := by
  rcases hA : getF row "AttributesJSON" with _ | _ | b | q | _ | s | xs | fs
  case str =>
    simp only [specAttrOK, hA] at h
    by_cases hs : s = ""
    · simp [attrRowStep, hA, hs]
    · rw [if_neg hs] at h
      rcases hp : jsonParse s with _ | v
      · simp only [hp, Bool.and_eq_true, Bool.not_eq_true'] at h
        obtain ⟨⟨h1, h2⟩, h3⟩ := h
        simp only [attrRowStep, hA, hp]
        rw [if_pos hs, if_pos ⟨by simp [h1], by simp [h2],
          by
            intro hm
            rw [hm] at h3
            simp at h3⟩]
      · simp [attrRowStep, hA, hs, hp]
  all_goals simp [attrRowStep, hA]

theorem attrGo_fst_nil {n : String} {data : List Row}
    (h : ∀ row ∈ data, specAttrOK row = true) : ∀ i, (attrGo n i data).1 = [] := by
  induction data with
  | nil => intro i; rfl
  | cons r rs ih =>
    intro i
    have e1 : (attrGo n i (r :: rs)).1 =
        (attrRowStep n i r).1 ++ (attrGo n (i + 1) rs).1 := rfl
    rw [e1, attrRowStep_fst_nil (h r (List.mem_cons_self _ _)),
      ih (fun row hr => h row (List.mem_cons_of_mem _ hr)) (i + 1)]
    rfl

theorem perSheet_nil_of_ok {n : String} {data : List Row}
    (h : specSheetOK n data = true)
    (hattr : getBaseSheetName n = "Clients" → ∀ row ∈ data, specAttrOK row = true) :
    ∃ d2, perSheet n data = some ([], d2) := by
  simp only [specSheetOK, Bool.and_eq_true] at h
  obtain ⟨⟨⟨⟨hreq, hid⟩, hprio⟩, hdur⟩, hslots⟩ := h
  have he1 : validateRequiredColumns n data = [] := by
    apply validateRequiredColumns_nil
    intro req hr row hrow col hcol
    simp only [hr, List.all_eq_true] at hreq
    have := hreq row hrow col hcol
    simp only [Bool.not_eq_true'] at this
    intro hu
    rw [hu] at this
    have h2 : JSVal.beq JSVal.undef JSVal.undef = false := this
    rw [JSVal.beq_refl] at h2
    exact absurd h2 (by simp)
  have he2 : validateDuplicateIDs n data = [] := by
    apply validateDuplicateIDs_nil
    intro c hc
    simp only [hc, Bool.and_eq_true] at hid
    exact hid.1
  by_cases hC : getBaseSheetName n = "Clients"
  · refine ⟨(attrGo n 0 data).2, ?_⟩
    rw [perSheet_clients data hC, he1, he2]
    have he3 : validatePriorityLevel data n = [] := by
      rw [validatePriorityLevel, if_neg (by simp [hC])]
      apply eachRow_nil
      intro i r hr
      apply priorityRowCheck_nil
      rw [if_pos hC] at hprio
      exact (List.all_eq_true.mp hprio) r hr
    have he4 : (attrGo n 0 data).1 = [] := attrGo_fst_nil (hattr hC) 0
    rw [he3, he4]
    rfl
  · by_cases hW : getBaseSheetName n = "Workers"
    · have hv : validateAvailableSlots data n = some [] := by
        rw [validateAvailableSlots, if_neg (by simp [hW])]
        apply eachRowM_nil
        intro i r hr
        apply slotsRowCheck_nil
        rw [if_pos hW] at hslots
        exact (List.all_eq_true.mp hslots) r hr
      refine ⟨data, ?_⟩
      simp only [perSheet, hC, hW, hv, he1, he2, if_false, if_true]
      simp
    · by_cases hT : getBaseSheetName n = "Tasks"
      · have he3 : validateDuration data n = [] := by
          rw [validateDuration, if_neg (by simp [hT])]
          apply eachRow_nil
          intro i r hr
          apply durationRowCheck_nil
          rw [if_pos hT] at hdur
          exact (List.all_eq_true.mp hdur) r hr
        refine ⟨data, ?_⟩
        simp only [perSheet, hC, hW, hT, he1, he2, he3, if_false, if_true]
        simp
      · refine ⟨data, ?_⟩
        simp only [perSheet, hC, hW, hT, he1, he2, if_false, if_true]
        simp

theorem sheetsGo_nil_of_ok : ∀ {s : Snapshot},
    (∀ e ∈ s, ∃ d2, perSheet e.1 e.2 = some ([], d2)) →
    ∃ s2, sheetsGo s = some ([], s2) := by
  intro s
  induction s with
  | nil => intro _; exact ⟨[], rfl⟩
  | cons e rest ih =>
    intro h
    obtain ⟨d2, hp⟩ := h e (List.mem_cons_self _ _)
    obtain ⟨s2, hr⟩ := ih fun e he => h e (List.mem_cons_of_mem _ he)
    refine ⟨(e.1, d2) :: s2, ?_⟩
    obtain ⟨en, ed⟩ := e
    rw [sheetsGo, hp, hr]
    rfl

theorem findSheet_frame {s s2 : Snapshot}
    (h : List.Forall₂ (fun e e2 =>
      e2.1 = e.1 ∧ (getBaseSheetName e.1 ≠ "Clients" → e2.2 = e.2) ∧
        List.Forall₂ repairedFrom e.2 e2.2) s s2) (b : String) :
    (findSheet s b = none ∧ findSheet s2 b = none) ∨
    ∃ nm d d2, findSheet s b = some (nm, d) ∧ findSheet s2 b = some (nm, d2) ∧
      (getBaseSheetName nm == b) = true ∧
      (getBaseSheetName nm ≠ "Clients" → d2 = d) ∧ List.Forall₂ repairedFrom d d2 := by
  induction h with
  | nil => exact Or.inl ⟨rfl, rfl⟩
  | @cons e e2 l1 l2 h1 htail ih =>
    obtain ⟨en, ed⟩ := e
    obtain ⟨e2n, e2d⟩ := e2
    obtain ⟨hn, hnc, hrf⟩ := h1
    simp only at hn hnc hrf
    subst hn
    rcases hb : (getBaseSheetName e2n == b) with _ | _
    · rw [findSheet, List.find?_cons_of_neg _ (by simpa using hb)]
      rw [findSheet, List.find?_cons_of_neg _ (by simpa using hb)]
      exact ih
    · rw [findSheet, List.find?_cons_of_pos _ (by simpa using hb)]
      rw [findSheet, List.find?_cons_of_pos _ (by simpa using hb)]
      exact Or.inr ⟨e2n, ed, e2d, rfl, rfl, hb, hnc, hrf⟩

theorem validateTaskReferences_nil {cdata tdata : List Row}
    (h : (cdata.all fun row => (parseCSVList (getF row "RequestedTaskIDs")).all fun tid =>
      tdata.any fun t => JSVal.beq (getF t "TaskID") (.str tid)) = true) :
    validateTaskReferences cdata tdata = [] := by
  rw [validateTaskReferences]
  apply eachRow_nil
  intro i r hr
  simp only [taskRefRowCheck]
  apply List.map_eq_nil_iff.mpr
  apply List.filter_eq_nil_iff.mpr
  intro tid htid
  have hone := (List.all_eq_true.mp ((List.all_eq_true.mp h) r hr)) tid htid
  simp [List.any_map, Function.comp]
  exact List.any_eq_true.mp hone

theorem validateSkillCoverage_nil {wdata tdata : List Row}
    (h : (tdata.all fun task => (parseCSVList (getF task "RequiredSkills")).all fun sk =>
      wdata.any fun w => (parseCSVList (getF w "Skills")).contains sk) = true) :
    validateSkillCoverage wdata tdata = [] := by
  rw [validateSkillCoverage]
  apply eachRow_nil
  intro i r hr
  simp only [skillRowCheck]
  apply List.map_eq_nil_iff.mpr
  apply List.filter_eq_nil_iff.mpr
  intro sk hsk
  have hone := (List.all_eq_true.mp ((List.all_eq_true.mp h) r hr)) sk hsk
  rw [List.any_eq_true] at hone
  obtain ⟨w, hw, hcont⟩ := hone
  have hmem : sk ∈ wdata.flatMap fun worker => parseCSVList (getF worker "Skills") :=
    List.mem_flatMap.mpr ⟨w, hw, List.elem_iff.mp hcont⟩
  simp [List.contains, List.elem_iff, hmem]

theorem validateMaxConcurrency_nil {tdata wdata : List Row}
    (h : (tdata.all fun task =>
      !(jsLtB (some (((wdata.filter fun w =>
            (parseCSVList (getF task "RequiredSkills")).any fun sk =>
              (parseCSVList (getF w "Skills")).contains sk).length : Nat) : ℚ))
          (jsToNumber (getF task "MaxConcurrent")))) = true) :
    validateMaxConcurrency tdata wdata = [] := by
  rw [validateMaxConcurrency]
  apply eachRow_nil
  intro i r hr
  have hone := (List.all_eq_true.mp h) r hr
  simp only [Bool.not_eq_true'] at hone
  simp only [concurrencyRowCheck]
  rw [if_neg (by rw [hone]; simp)]

theorem validateWorkerOverload_nil {wdata : List Row}
    (h : (wdata.all fun w =>
      !(jsLtB (jsToNumber (jsLengthVal (parseNumberArray (getF w "AvailableSlots"))))
          (jsToNumber (getF w "MaxLoadPerPhase")))) = true) :
    validateWorkerOverload wdata = [] := by
  rw [validateWorkerOverload]
  apply eachRow_nil
  intro i r hr
  have hone := (List.all_eq_true.mp h) r hr
  simp only [Bool.not_eq_true'] at hone
  simp only [overloadRowCheck]
  rw [if_neg (by rw [hone]; simp)]

theorem saturationErrorsOf_nil {S R : JSMap}
    (h : (R.all fun e => !(jsGtB e.2 (orZero (mapGet S e.1)))) = true) :
    saturationErrorsOf S R = [] := by
  rw [saturationErrorsOf]
  apply List.flatMap_eq_nil_iff.mpr
  intro e he
  have hone := (List.all_eq_true.mp h) e he
  simp only [Bool.not_eq_true'] at hone
  simp [hone]

theorem validatePhaseSlotSaturation_nil {tdata wdata : List Row}
    (h : specSupplyDemandOK wdata tdata = true) :
    validatePhaseSlotSaturation tdata wdata = some [] := by
  rw [validatePhaseSlotSaturation]
  rcases hS : phaseSlotsGo [] wdata with _ | S
  · simp only [specSupplyDemandOK, hS] at h
    exact absurd h (by simp)
  · rcases hR : phaseReqGo [] tdata with _ | R
    · simp only [specSupplyDemandOK, hS, hR] at h
      exact absurd h (by simp)
    · simp only [specSupplyDemandOK, hS, hR] at h
      exact congrArg some (saturationErrorsOf_nil h)

theorem validateTaskReferences_congr {cdata cd2 tdata : List Row}
    (h : List.Forall₂ (fun r r2 => agreesExcept "AttributesJSON" r r2) cdata cd2) :
    validateTaskReferences cd2 tdata = validateTaskReferences cdata tdata := by
  rw [validateTaskReferences, validateTaskReferences]
  exact eachRow_congr
    (fun i a b hab => by
      simp only [taskRefRowCheck, hab.2 "RequestedTaskIDs" (by decide)])
    h 0

theorem crossStage_nil_of_ok {s s2 : Snapshot}
    (hframe : List.Forall₂ (fun e e2 =>
      e2.1 = e.1 ∧ (getBaseSheetName e.1 ≠ "Clients" → e2.2 = e.2) ∧
        List.Forall₂ repairedFrom e.2 e2.2) s s2)
    (hrefs : (match findSheet s "Clients", findSheet s "Tasks" with
      | some (_, cdata), some (_, tdata) =>
        cdata.all fun row => (parseCSVList (getF row "RequestedTaskIDs")).all fun tid =>
          tdata.any fun t => JSVal.beq (getF t "TaskID") (.str tid)
      | _, _ => true) = true)
    (hcross : (match findSheet s "Workers", findSheet s "Tasks" with
      | some (_, wdata), some (_, tdata) =>
        (tdata.all fun task => (parseCSVList (getF task "RequiredSkills")).all fun sk =>
          wdata.any fun w => (parseCSVList (getF w "Skills")).contains sk) &&
        specSupplyDemandOK wdata tdata
      | _, _ => true) = true)
    (hconc : (match findSheet s "Workers", findSheet s "Tasks" with
      | some (_, wdata), some (_, tdata) =>
        tdata.all fun task =>
          !(jsLtB (some (((wdata.filter fun w =>
                (parseCSVList (getF task "RequiredSkills")).any fun sk =>
                  (parseCSVList (getF w "Skills")).contains sk).length : Nat) : ℚ))
              (jsToNumber (getF task "MaxConcurrent")))
      | _, _ => true) = true)
    (hover : (match findSheet s "Workers" with
      | some (_, wdata) =>
        wdata.all fun w =>
          !(jsLtB (jsToNumber (jsLengthVal (parseNumberArray (getF w "AvailableSlots"))))
              (jsToNumber (getF w "MaxLoadPerPhase")))
      | none => true) = true) :
    crossStage [] s2 = some ({ isValid := true, errors := [] }, s2) := by
  rcases findSheet_frame hframe "Clients" with ⟨hc1, hc2⟩ |
    ⟨cn, cd, cd2, hc1, hc2, hcb, hcnc, hcrf⟩ <;>
  rcases findSheet_frame hframe "Workers" with ⟨hw1, hw2⟩ |
    ⟨wn, wd, wd2, hw1, hw2, hwb, hwnc, hwrf⟩ <;>
  rcases findSheet_frame hframe "Tasks" with ⟨ht1, ht2⟩ |
    ⟨tn, td, td2, ht1, ht2, htb, htnc, htrf⟩
  · simp [crossStage, hc2, hw2, ht2, validateCircularCoRunGroups, validateConflictingRules]
  · simp [crossStage, hc2, hw2, ht2, validateCircularCoRunGroups, validateConflictingRules]
  · have hwd : wd2 = wd := hwnc (by rw [beq_iff_eq.mp hwb]; decide)
    subst hwd
    simp only [hw1] at hover
    simp [crossStage, hc2, hw2, ht2, validateCircularCoRunGroups, validateConflictingRules, validateWorkerOverload_nil hover]
  · have hwd : wd2 = wd := hwnc (by rw [beq_iff_eq.mp hwb]; decide)
    have htd : td2 = td := htnc (by rw [beq_iff_eq.mp htb]; decide)
    subst hwd
    subst htd
    simp only [hw1, ht1] at hover hcross hconc
    rw [Bool.and_eq_true] at hcross
    obtain ⟨hskill, hsat⟩ := hcross
    simp [crossStage, hc2, hw2, ht2, validateCircularCoRunGroups, validateConflictingRules, validateWorkerOverload_nil hover,
      validateSkillCoverage_nil hskill, validateMaxConcurrency_nil hconc,
      validatePhaseSlotSaturation_nil hsat]
  · simp [crossStage, hc2, hw2, ht2, validateCircularCoRunGroups, validateConflictingRules]
  · have htd : td2 = td := htnc (by rw [beq_iff_eq.mp htb]; decide)
    subst htd
    simp only [hc1, ht1] at hrefs
    have hagree : List.Forall₂ (fun r r2 => agreesExcept "AttributesJSON" r r2) cd cd2 :=
      hcrf.imp fun _ _ h => repairedFrom_agrees h
    have href0 : validateTaskReferences cd2 td2 = [] := by
      rw [validateTaskReferences_congr hagree]
      exact validateTaskReferences_nil hrefs
    simp [crossStage, hc2, hw2, ht2, validateCircularCoRunGroups, validateConflictingRules, href0]
  · have hwd : wd2 = wd := hwnc (by rw [beq_iff_eq.mp hwb]; decide)
    subst hwd
    simp only [hw1] at hover
    simp [crossStage, hc2, hw2, ht2, validateCircularCoRunGroups, validateConflictingRules, validateWorkerOverload_nil hover]
  · have hwd : wd2 = wd := hwnc (by rw [beq_iff_eq.mp hwb]; decide)
    have htd : td2 = td := htnc (by rw [beq_iff_eq.mp htb]; decide)
    subst hwd
    subst htd
    simp only [hc1, hw1, ht1] at hrefs hover hcross hconc
    rw [Bool.and_eq_true] at hcross
    obtain ⟨hskill, hsat⟩ := hcross
    have hagree : List.Forall₂ (fun r r2 => agreesExcept "AttributesJSON" r r2) cd cd2 :=
      hcrf.imp fun _ _ h => repairedFrom_agrees h
    have href0 : validateTaskReferences cd2 td2 = [] := by
      rw [validateTaskReferences_congr hagree]
      exact validateTaskReferences_nil hrefs
    simp [crossStage, hc2, hw2, ht2, validateCircularCoRunGroups, validateConflictingRules, href0, validateWorkerOverload_nil hover,
      validateSkillCoverage_nil hskill, validateMaxConcurrency_nil hconc,
      validatePhaseSlotSaturation_nil hsat]

/-- C1 counterexample: a snapshot satisfying every hypothesis the claim lists
(required fields present, IDs unique, references resolvable, skills covered,
numeric fields in their domains, slot count at least `MaxLoadPerPhase`, and
per-phase supply at least demand) on which `validateAllData` still returns
`isValid = false` with an error, because the claim's hypothesis list omits the
`MaxConcurrent` vs. qualified-workers check (and the `AttributesJSON` check). -/
theorem C1_counterexample :
    specC1Valid exC1 = true ∧
    ∃ res s2, validateAllData exC1 = some (res, s2) ∧ res.isValid = false ∧
      res.errors.length = 1 :=
  ⟨rfl, _, _, rfl, rfl, rfl⟩

/-- C1 (amended): on snapshots that additionally satisfy the concurrency
check (`MaxConcurrent` at most the qualified-worker count for every task) and
have parsable-or-repairable `AttributesJSON` on every client row,
`validateAllData` succeeds with `isValid = true` and an empty error list; and
for every successful run, `isValid` is `true` exactly when the concatenated
error list is empty. -/
theorem C1_amended :
    (∀ s : Snapshot, specC1ValidAmended s = true →
      ∃ s2, validateAllData s = some ({ isValid := true, errors := [] }, s2)) ∧
    (∀ (s : Snapshot) (res : ValidationResult) (s2 : Snapshot),
      validateAllData s = some (res, s2) → (res.isValid = true ↔ res.errors = [])) := by
  constructor
  · intro s h
    rw [specC1ValidAmended, Bool.and_eq_true, Bool.and_eq_true] at h
    obtain ⟨⟨hvalid, hconc⟩, hattr⟩ := h
    rw [specC1Valid, Bool.and_eq_true, Bool.and_eq_true, Bool.and_eq_true] at hvalid
    obtain ⟨⟨⟨hsheets, hrefs⟩, hcross⟩, hover⟩ := hvalid
    have hper : ∀ e ∈ s, ∃ d2, perSheet e.1 e.2 = some ([], d2) := by
      intro e he
      apply perSheet_nil_of_ok (List.all_eq_true.mp hsheets e he)
      intro hC row hrow
      have hae := List.all_eq_true.mp hattr e he
      rw [if_pos hC] at hae
      exact List.all_eq_true.mp hae row hrow
    obtain ⟨s2, hsg⟩ := sheetsGo_nil_of_ok hper
    have hframe := sheetsGo_frame hsg
    refine ⟨s2, ?_⟩
    rw [validateAllData, hsg]
    exact crossStage_nil_of_ok hframe hrefs hcross hconc hover
  · intro s res s2 h
    rcases hg : sheetsGo s with _ | ⟨se, upd⟩
    · rw [validateAllData, hg] at h
      exact absurd h (by simp)
    · rw [validateAllData, hg] at h
      have hc : crossStage se upd = some (res, s2) := h
      rw [crossStage_isValid hc]
      simp [List.length_eq_zero]

/-- C1 witness: the amended validity holds of the concrete three-sheet
snapshot `exC1ok`, and validation accepts it with no errors. -/
theorem C1_amended_witness :
    specC1ValidAmended exC1ok = true ∧
    ∃ s2, validateAllData exC1ok = some ({ isValid := true, errors := [] }, s2) :=
  ⟨rfl, C1_amended.1 exC1ok rfl⟩
